import Mathlib

/-!
CompatUtility (lib/icinga/compatutility.cpp)

A shallow embedding of the legacy status projection helpers of Icinga 2 and
proofs about them.

Modelling conventions.

* A program string (`icinga::String`, a `std::string`) is the list of its
  characters, `Str`.
* `String::NPos` is `none`: `Find` returns `Option Nat`, and `SubStr` takes
  its length argument as `Option Nat` (`none` meaning "up to the end").
* A `double` is an exact rational (`ℚ`): the functions below only compare and
  copy doubles, except for the final division by `60.0`.
* The notification set of a checkable (`std::set<Notification::Ptr>`) is the
  list of its elements in iteration order; the sets of users and user groups
  that are returned are lists without repetition, read through membership.
* A filter or mask held in an `int` is given by its 32-bit two's complement
  pattern (`CInt`); the conversions between `int` and `unsigned long` are
  explicit.
* A `Dictionary` is the list of its pairs; a `Value` is absent, a scalar given
  by its string form, or an array of string forms.
* Enumerators and helpers that are declared outside this file are parameters
  (`FilterConstants`, `StateToString`) or carry a note on where they come from.
-/

namespace CompatUtility

/-! ## Strings -/

/-- A program string: the sequence of its characters. -/
abbrev Str := List Char

/-- The line-break character. -/
def LF : Char := '\n'

/-- The backslash character. -/
def BSL : Char := '\\'

/-- The scan of `boost::algorithm::replace_all(input, pat, rep)`: the input is
read from left to right; where `pat` starts at the current position, `rep` is
emitted and the scan resumes right after the match, otherwise the current
character is emitted. The first argument counts the characters of a match
that remain to be skipped. -/
def replace_all_from (pat rep : Str) : Nat → Str → Str
  | _, [] => []
  | skip + 1, _ :: cs => replace_all_from pat rep skip cs
  | 0, c :: cs =>
    if pat.isPrefixOf (c :: cs) then
      rep ++ replace_all_from pat rep (pat.length - 1) cs
    else
      c :: replace_all_from pat rep 0 cs

/-- Model of `boost::algorithm::replace_all(input, pat, rep)` for a non-empty
search string `pat`: every non-overlapping occurrence of `pat`, found from left
to right, is replaced by `rep`. -/
def replace_all (input pat rep : Str) : Str :=
  replace_all_from pat rep 0 input

/-- Model of `String::Find(pat)`: the index of the first occurrence of `pat`,
`none` (that is `String::NPos`) when there is none. -/
def Find (pat : Str) : Str → Option Nat
  | [] => if pat.isPrefixOf [] then some 0 else none
  | c :: cs =>
    if pat.isPrefixOf (c :: cs) then some 0
    else (Find pat cs).map (fun i => i + 1)

/-- Model of `String::SubStr(first, len)` (`std::string::substr`) for
`first ≤ length`: at most `len` characters from index `first` on, all of them
when `len` is `String::NPos` (`none`). -/
def SubStr (s : Str) (first : Nat) (len : Option Nat) : Str :=
  match len with
  | none => s.drop first
  | some n => (s.drop first).take n

/-- Model of `CompatUtility::EscapeString`. -/
def EscapeString (str : Str) : Str :=
  replace_all str [LF] [BSL, 'n']

/-- Model of `CompatUtility::UnEscapeString`. -/
def UnEscapeString (str : Str) : Str :=
  replace_all str [BSL, 'n'] [LF]

/-! ## Check results -/

/-- A check result; only its raw output is read here. -/
structure CheckResult where
  output : Str
deriving DecidableEq, Repr

/-- Model of `CompatUtility::GetCheckResultOutput`; a null `cr` is `none`. -/
def GetCheckResultOutput (cr : Option CheckResult) : Str :=
  match cr with
  | none => []
  | some r =>
    let raw_output := replace_all r.output [';'] [':']
    let line_end := Find [LF] raw_output
    SubStr raw_output 0 line_end

/-- Model of `CompatUtility::GetCheckResultLongOutput`; a null `cr` is `none`. The
condition `line_end > 0 && line_end != String::NPos` is the `some (k + 1)`
case. -/
def GetCheckResultLongOutput (cr : Option CheckResult) : Str :=
  match cr with
  | none => []
  | some r =>
    let raw_output := replace_all r.output [';'] [':']
    match Find [LF] raw_output with
    | some (k + 1) =>
      let long_output := SubStr raw_output (k + 1 + 1) (some raw_output.length)
      EscapeString long_output
    | _ => []

/-- The delimiter-safe text: every semicolon replaced by a colon. -/
def sanitized (raw : Str) : Str :=
  raw.map (fun c => if c = ';' then ':' else c)

/-- The text before the first line-break (all of it when there is none). -/
def before_first_break (s : Str) : Str :=
  s.takeWhile (fun c => c != LF)

/-- The text after the first line-break (empty when there is none). -/
def after_first_break (s : Str) : Str :=
  (s.dropWhile (fun c => c != LF)).drop 1

/-! ## Notifications -/

/-- A time period; whether an instant lies inside it is decided by the object
store, through the predicate `IsInside` that the functions below take as an
argument. -/
structure TimePeriod where
  name : Str
deriving DecidableEq, Repr

/-- A user, identified by its name. -/
structure User where
  name : Str
deriving DecidableEq, Repr

/-- A user group: its name and its members, in iteration order. -/
structure UserGroup where
  name : Str
  members : List User
deriving DecidableEq, Repr

/-- A C++ `int`, given by its 32-bit two's complement pattern: the patterns
below 2147483648 are the non-negative values, and 4294967295 is -1, the mask
with every bit set. -/
abbrev CInt := Fin 4294967296

/-- A notification rule, with the attributes read in this file. A filter is a
bitmask held in an `int`; the interval and the two timestamps are `double`s;
the notification number is an `int`; a null period is `none`; the users and
the user groups assigned to the rule are listed in iteration order. -/
structure Notification where
  state_filter : CInt
  type_filter : CInt
  interval : ℚ
  last_notification : ℚ
  next_notification : ℚ
  notification_number : Int
  period : Option TimePeriod
  users : List User
  user_groups : List UserGroup
deriving DecidableEq

/-- A checkable (host or service), with the attributes read by the
notification helpers: its notifications in iteration order and its volatile
flag. -/
structure Checkable where
  notifications : List Notification
  volatile : Bool
deriving DecidableEq

/-- Conversion of an `unsigned long` value to `int`: the low 32 bits, read as
two's complement. -/
def ulong_to_int (n : Nat) : Int :=
  if n % 2 ^ 32 < 2 ^ 31 then ((n % 2 ^ 32 : Nat) : Int)
  else ((n % 2 ^ 32 : Nat) : Int) - 2 ^ 32

/-- Conversion of an `int` to `unsigned long` (64 bits). -/
def int_to_ulong (i : Int) : Nat :=
  (i % 2 ^ 64).toNat

/-- The bit pattern of an `int` (32 bits, two's complement), the operand of
`&` with an enumerator. -/
def int_bits (i : Int) : Nat :=
  (i % 2 ^ 32).toNat

/-- The value of an `int` given by its pattern. -/
def CInt.toInt (p : CInt) : Int :=
  ulong_to_int p.val

/-- Conversion to `unsigned long` of an `int` given by its pattern: the
pattern with its bit 31 repeated in the bits 32 to 63. -/
def CInt.toULong (p : CInt) : Nat :=
  int_to_ulong p.toInt

/-- The conversion `static_cast<int>(double)`: the fractional part is
discarded; the value is taken to lie in the range of `int`. -/
def double_to_int (q : ℚ) : Int :=
  Int.tdiv q.num q.den

/-- The loop of `CompatUtility::GetCheckableInNotificationPeriod` over the
notifications: it returns 1 at the first notification without period or with
a period that holds `now`, and 0 when the notifications are exhausted. -/
def in_notification_period_loop (IsInside : TimePeriod → ℚ → Bool) (now : ℚ) :
    List Notification → Int
  | [] => 0
  | notification :: rest =>
    match notification.period with
    | none => 1
    | some timeperiod =>
      if IsInside timeperiod now then 1
      else in_notification_period_loop IsInside now rest

/-- Model of `CompatUtility::GetCheckableInNotificationPeriod`, with the result of
`Utility::GetTime()` as `now`. -/
def GetCheckableInNotificationPeriod (IsInside : TimePeriod → ℚ → Bool) (now : ℚ)
    (checkable : Checkable) : Int :=
  in_notification_period_loop IsInside now checkable.notifications

/-- Model of `CompatUtility::GetCheckableNotificationLastNotification`. -/
def GetCheckableNotificationLastNotification (checkable : Checkable) : Int :=
  double_to_int (checkable.notifications.foldl
    (fun last_notification notification =>
      if notification.last_notification > last_notification
      then notification.last_notification else last_notification) 0)

/-- The loop of `CompatUtility::GetCheckableNotificationNextNotification`: the
value of `next_notification` after the notifications have been visited. -/
def next_notification_loop (notifications : List Notification) : ℚ :=
  notifications.foldl
    (fun next_notification notification =>
      if next_notification = 0 ∨ notification.next_notification < next_notification
      then notification.next_notification else next_notification) 0

/-- Model of `CompatUtility::GetCheckableNotificationNextNotification`. -/
def GetCheckableNotificationNextNotification (checkable : Checkable) : Int :=
  double_to_int (next_notification_loop checkable.notifications)

/-- Model of `CompatUtility::GetCheckableNotificationNotificationNumber`. -/
def GetCheckableNotificationNotificationNumber (checkable : Checkable) : Int :=
  checkable.notifications.foldl
    (fun notification_number notification =>
      if notification.notification_number > notification_number
      then notification.notification_number else notification_number) 0

/-- The loop of `CompatUtility::GetCheckableNotificationNotificationInterval`
and the default that follows it: the value of `notification_interval`, in
seconds, just before the division. -/
def notification_interval_seconds (notifications : List Notification) : ℚ :=
  let notification_interval := notifications.foldl
    (fun notification_interval notification =>
      if notification_interval = -1 ∨ notification.interval < notification_interval
      then notification.interval else notification_interval) (-1)
  if notification_interval = -1 then 60 else notification_interval

/-- Model of `CompatUtility::GetCheckableNotificationNotificationInterval`. -/
def GetCheckableNotificationNotificationInterval (checkable : Checkable) : ℚ :=
  notification_interval_seconds checkable.notifications / 60

/-- Model of `CompatUtility::GetCheckableNoMoreNotifications`. -/
def GetCheckableNoMoreNotifications (checkable : Checkable) : Int :=
  if GetCheckableNotificationNotificationInterval checkable = 0 ∧ checkable.volatile = false
  then 1 else 0

/-- Model of `CompatUtility::GetCheckableNotificationTypeFilter`. -/
def GetCheckableNotificationTypeFilter (checkable : Checkable) : Int :=
  ulong_to_int (checkable.notifications.foldl
    (fun notification_type_filter notification =>
      notification_type_filter ||| notification.type_filter.toULong) 0)

/-- Model of `CompatUtility::GetCheckableNotificationStateFilter`. -/
def GetCheckableNotificationStateFilter (checkable : Checkable) : Int :=
  ulong_to_int (checkable.notifications.foldl
    (fun notification_state_filter notification =>
      notification_state_filter ||| notification.state_filter.toULong) 0)

/-! ## The aggregates as the specification words them -/

/-- The bitwise OR of a list of filters, 0 for the empty list. -/
def or_of_filters (filters : List Nat) : Nat :=
  filters.foldr (fun a b => a ||| b) 0

/-- The minimum of a list of numbers, `none` for the empty list. -/
def minimum_of : List ℚ → Option ℚ
  | [] => none
  | x :: xs =>
    match minimum_of xs with
    | none => some x
    | some m => some (min x m)

/-- The next-notification timestamp as specified: the minimum over the
notifications that have a nonzero value, 0 when there is none. -/
def spec_next_notification (notifications : List Notification) : ℚ :=
  (minimum_of ((notifications.map (fun n => n.next_notification)).filter
    (fun t => t ≠ 0))).getD 0

/-- The notification interval in minutes as specified: the minimum over the
intervals that are set (not -1), 60 seconds when there is none, divided
by 60. -/
def spec_notification_interval (notifications : List Notification) : ℚ :=
  (minimum_of ((notifications.map (fun n => n.interval)).filter
    (fun t => t ≠ -1))).getD 60 / 60

/-- The no-more-notifications flag as specified: 1 exactly when the minimum
over the intervals that are set is 0 and the checkable is not volatile. -/
def spec_no_more_notifications (checkable : Checkable) : Int :=
  if spec_notification_interval checkable.notifications = 0 ∧ checkable.volatile = false
  then 1 else 0

/-- A notification with the given interval, last and next timestamps and
number, empty filters, no period and no recipient. -/
def notification_at (interval last next : ℚ) (number : Int) : Notification :=
  ⟨0, 0, interval, last, next, number, none, [], []⟩

/-- A notification with the given state and type filters, interval 1800, no
period and no recipient. -/
def notification_filtering (state_filter type_filter : CInt) : Notification :=
  ⟨state_filter, type_filter, 1800, 0, 0, 0, none, [], []⟩

/-! ## Recipients -/

/-- Insertion of a range into a `std::set`
(`std::copy(.., std::inserter(set, ..))`): an element already present is not
added again. -/
def insert_all {α : Type} [DecidableEq α] (set : List α) (range : List α) : List α :=
  range.foldl (fun acc x => if x ∈ acc then acc else acc ++ [x]) set

/-- Model of `CompatUtility::GetCheckableNotificationUsers`. -/
def GetCheckableNotificationUsers (checkable : Checkable) : List User :=
  checkable.notifications.foldl
    (fun allUsers notification =>
      let users := notification.users
      let allUsers := insert_all allUsers users
      notification.user_groups.foldl
        (fun allUsers ug => insert_all allUsers ug.members) allUsers) []

/-- Model of `CompatUtility::GetCheckableNotificationUserGroups`. -/
def GetCheckableNotificationUserGroups (checkable : Checkable) : List UserGroup :=
  checkable.notifications.foldl
    (fun usergroups notification =>
      notification.user_groups.foldl
        (fun usergroups ug => insert_all usergroups [ug]) usergroups) []

/-- A notification with the given users and user groups, empty filters,
interval 1800 and no period. -/
def notification_to (users : List User) (user_groups : List UserGroup) : Notification :=
  ⟨0, 0, 1800, 0, 0, 0, none, users, user_groups⟩

/-! ## Commands, variables, hosts and services -/

/-- The double quote character. -/
def DQUOTE : Char := Char.ofNat 34

/-- Model of `String::Contains(str)`: `Find(str)` is not `String::NPos`. -/
def Contains (s pat : Str) : Bool :=
  (Find pat s).isSome

/-- The reflection type of a command, as far as `GetCommandNamePrefix` tells
types apart. -/
inductive CommandType
  | CheckCommand
  | NotificationCommand
  | EventCommand
  | Other
deriving DecidableEq, Repr

/-- The command line attribute of a command: absent, a scalar given by its
string form (`Convert::ToString`), or an array given by the string forms of its
elements. -/
inductive Value
  | empty
  | scalar (text : Str)
  | array (items : List Str)
deriving DecidableEq, Repr

/-- Modelled from the spec: `Value::IsEmpty` (lib/base/value.hpp, not among the
sources). The absent value is empty; an empty string is taken as absent as
well, so that a scalar template is rendered only when it is non-empty. -/
def Value.IsEmpty : Value → Bool
  | Value.empty => true
  | Value.scalar text => text.isEmpty
  | Value.array _ => false

/-- The string form of a value that is not an array (`Convert::ToString`). -/
def Value.ToString : Value → Str
  | Value.scalar text => text
  | _ => []

/-- A dictionary of variables (`Dictionary`, a `std::map` from names to
values): its pairs in iteration order, each value given by its string form. -/
abbrev Dictionary := List (Str × Str)

/-- The value bound to a key, `none` when the key is not bound. -/
def Dictionary.Get (d : Dictionary) (key : Str) : Option Str :=
  match d with
  | [] => none
  | (k, v) :: rest => if k = key then some v else Dictionary.Get rest key

/-- Modelled from the spec: `Dictionary::Set` (lib/base/dictionary.cpp, not
among the sources). A key that is not bound yet is bound to the value; a key
that is already bound keeps its value ("later dictionaries do not overwrite
earlier matches for the same key (first writer wins)"). The place of a new
pair in the iteration order is not modelled: it is put last. -/
def Dictionary.Set (d : Dictionary) (key value : Str) : Dictionary :=
  match Dictionary.Get d key with
  | some _ => d
  | none => d ++ [(key, value)]

/-- A command: its reflection type, its name, its command line and its
variables (a null dictionary is `none`). -/
structure Command where
  reflection_type : CommandType
  name : Str
  command_line : Value
  vars : Option Dictionary
deriving DecidableEq

/-- The states of a host, `HostUp = 0` and `HostDown = 1`. -/
inductive HostState
  | HostUp
  | HostDown
deriving DecidableEq, Repr

/-- The integer value of a host state. -/
def HostState.toInt : HostState → Int
  | HostState.HostUp => 0
  | HostState.HostDown => 1

/-- A host: a checkable with its check command (null is `none`), its
variables (null is `none`), its state and whether it is reachable. -/
structure Host extends Checkable where
  check_command : Option Command
  vars : Option Dictionary
  state : HostState
  reachable : Bool

/-- A service: a checkable with its check command, its variables and its
host. -/
structure Service extends Checkable where
  check_command : Option Command
  vars : Option Dictionary
  host : Host

/-- A checkable object handed to the command helpers: a host or a service. -/
inductive CheckableObject
  | host (h : Host)
  | service (s : Service)

/-- The check command of a checkable object (`Checkable::GetCheckCommand`). -/
def CheckableObject.GetCheckCommand : CheckableObject → Option Command
  | CheckableObject.host h => h.check_command
  | CheckableObject.service s => s.check_command

/-- Modelled from the spec: `GetHostService` (lib/icinga/service.cpp, not among
the sources). For a host it gives the host and no service; for a service it
gives the host of the service and the service. -/
def GetHostService : CheckableObject → Host × Option Service
  | CheckableObject.host h => (h, none)
  | CheckableObject.service s => (s.host, some s)

/-- Model of `CompatUtility::GetCommandLine`. -/
def GetCommandLine (command : Command) : Str :=
  let commandLine := command.command_line
  match commandLine with
  | Value.array args =>
    args.foldl (fun result arg => result ++ ([' ', DQUOTE] ++ EscapeString arg ++ [DQUOTE])) []
  | _ =>
    if !commandLine.IsEmpty then EscapeString commandLine.ToString
    else "<internal>".toList

/-- Model of `CompatUtility::GetCommandNamePrefix`; a null command is
`none`. -/
def GetCommandNamePrefix (command : Option Command) : Str :=
  match command with
  | none => []
  | some c =>
    if c.reflection_type = CommandType.CheckCommand then "check_".toList
    else if c.reflection_type = CommandType.NotificationCommand then "notification_".toList
    else if c.reflection_type = CommandType.EventCommand then "event_".toList
    else []

/-- Model of `CompatUtility::GetCommandName`; a null command is `none`. -/
def GetCommandName (command : Option Command) : Str :=
  match command with
  | none => []
  | some c => GetCommandNamePrefix command ++ c.name

/-- Model of `CompatUtility::GetHostCurrentState`. -/
def GetHostCurrentState (host : Host) : Int :=
  if host.state ≠ HostState.HostUp ∧ host.reachable = false then 2
  else host.state.toInt

/-- Model of `CompatUtility::GetHostStateString`; `Host::StateToString`
(lib/icinga/host.cpp) is not among the sources and is taken as an
argument. -/
def GetHostStateString (StateToString : HostState → Str) (host : Host) : Str :=
  if host.state ≠ HostState.HostUp ∧ host.reachable = false then "UNREACHABLE".toList
  else StateToString host.state

/-- The loop of `CompatUtility::GetCheckableCommandArgs` over the command
variables: a pair is set in `args` when the command line contains `$key$`. -/
def command_vars_loop (command_line : Str) (command_vars args : Dictionary) : Dictionary :=
  command_vars.foldl
    (fun args kv =>
      let mac := ['$'] ++ kv.1 ++ ['$']
      if Contains command_line mac then args.Set kv.1 kv.2 else args) args

/-- The loop of `CompatUtility::GetCheckableCommandArgs` over the host
variables: a pair is set in `args` when the command line contains `$key$`,
and when it contains `$host.vars.key$`. -/
def host_vars_loop (command_line : Str) (host_vars args : Dictionary) : Dictionary :=
  host_vars.foldl
    (fun args kv =>
      let mac := ['$'] ++ kv.1 ++ ['$']
      let args := if Contains command_line mac then args.Set kv.1 kv.2 else args
      let mac := "$host.vars.".toList ++ kv.1 ++ ['$']
      if Contains command_line mac then args.Set kv.1 kv.2 else args) args

/-- The loop of `CompatUtility::GetCheckableCommandArgs` over the service
variables: a pair is set in `args` when the command line contains `$key$`,
and when it contains `$service.vars.key$`. -/
def service_vars_loop (command_line : Str) (service_vars args : Dictionary) : Dictionary :=
  service_vars.foldl
    (fun args kv =>
      let mac := ['$'] ++ kv.1 ++ ['$']
      let args := if Contains command_line mac then args.Set kv.1 kv.2 else args
      let mac := "$service.vars.".toList ++ kv.1 ++ ['$']
      if Contains command_line mac then args.Set kv.1 kv.2 else args) args

/-- The dictionary `args` that `CompatUtility::GetCheckableCommandArgs` builds
for a checkable with the check command `command`, the host `host` and the
service `service` (null is `none`). -/
def command_args (command : Command) (host : Host) (service : Option Service) : Dictionary :=
  let command_line := GetCommandLine command
  let args : Dictionary := []
  let args :=
    match command.vars with
    | some command_vars => command_vars_loop command_line command_vars args
    | none => args
  let args :=
    match host.vars with
    | some host_vars => host_vars_loop command_line host_vars args
    | none => args
  match service with
  | some service =>
    match service.vars with
    | some service_vars => service_vars_loop command_line service_vars args
    | none => args
  | none => args

/-- Model of `CompatUtility::GetCheckableCommandArgs`: the pairs of `args`,
each rendered as `key=value!`; empty without check command. -/
def GetCheckableCommandArgs (checkable : CheckableObject) : Str :=
  match checkable.GetCheckCommand with
  | some command =>
    let hs := GetHostService checkable
    (command_args command hs.1 hs.2).foldl
      (fun arg_string kv => arg_string ++ (kv.1 ++ ['='] ++ kv.2 ++ ['!'])) []
  | none => []

/-- The used variables of a checkable object: the dictionary `args` of
`GetCheckableCommandArgs`, empty without check command. -/
def used_vars (checkable : CheckableObject) : Dictionary :=
  match checkable.GetCheckCommand with
  | some command => command_args command (GetHostService checkable).1 (GetHostService checkable).2
  | none => []

/-- Whether a dictionary, possibly null, binds a key. -/
def binds (vars : Option Dictionary) (key : Str) : Prop :=
  ∃ d, vars = some d ∧ ∃ v, (key, v) ∈ d

/-- The service variables that a checkable object reads: those of the
service, none for a host. -/
def CheckableObject.service_vars : CheckableObject → Option Dictionary
  | CheckableObject.host _ => none
  | CheckableObject.service s => s.vars

/-- The host variables that a checkable object reads: those of the host
itself, or of the host of the service. -/
def CheckableObject.host_vars (checkable : CheckableObject) : Option Dictionary :=
  (GetHostService checkable).1.vars

/-- The arguments as the specification words the rendering: each wrapped in
double quotes with line-breaks escaped, separated by single spaces. -/
def spec_quoted_args : List Str → Str
  | [] => []
  | [a] => [DQUOTE] ++ EscapeString a ++ [DQUOTE]
  | a :: b :: rest =>
    [DQUOTE] ++ EscapeString a ++ [DQUOTE] ++ [' '] ++ spec_quoted_args (b :: rest)

/-- The names `UP` and `DOWN` of the host states, a sample of
`Host::StateToString`. -/
def sample_StateToString : HostState → Str
  | HostState.HostUp => "UP".toList
  | HostState.HostDown => "DOWN".toList

/-! ## Notify-on flags -/

/-- The enumerators of `ServiceState` and `NotificationType` that the notify-on
helpers use as masks. They are declared outside this file and are taken as
parameters; each is an `int`, given by its pattern. -/
structure FilterConstants where
  ServiceWarning : CInt
  ServiceCritical : CInt
  ServiceUnknown : CInt
  NotificationRecovery : CInt
  NotificationFlappingStart : CInt
  NotificationFlappingEnd : CInt
  NotificationDowntimeStart : CInt
  NotificationDowntimeEnd : CInt
  NotificationDowntimeRemoved : CInt

/-- Model of `CompatUtility::GetHostNotifyOnDown`. -/
def GetHostNotifyOnDown (K : FilterConstants) (host : Host) : Int :=
  let notification_state_filter :=
    int_to_ulong (GetCheckableNotificationStateFilter host.toCheckable)
  if notification_state_filter &&& K.ServiceCritical.toULong ≠ 0 ∨
      notification_state_filter &&& K.ServiceWarning.toULong ≠ 0 then 1
  else 0

/-- Model of `CompatUtility::GetHostNotifyOnUnreachable`. -/
def GetHostNotifyOnUnreachable (K : FilterConstants) (host : Host) : Int :=
  let notification_state_filter :=
    int_to_ulong (GetCheckableNotificationStateFilter host.toCheckable)
  if notification_state_filter &&& K.ServiceUnknown.toULong ≠ 0 then 1
  else 0

/-- Model of `CompatUtility::GetCheckableNotifyOnWarning`. -/
def GetCheckableNotifyOnWarning (K : FilterConstants) (checkable : Checkable) : Int :=
  if int_bits (GetCheckableNotificationStateFilter checkable) &&& K.ServiceWarning.val ≠ 0 then 1
  else 0

/-- Model of `CompatUtility::GetCheckableNotifyOnCritical`. -/
def GetCheckableNotifyOnCritical (K : FilterConstants) (checkable : Checkable) : Int :=
  if int_bits (GetCheckableNotificationStateFilter checkable) &&& K.ServiceCritical.val ≠ 0 then 1
  else 0

/-- Model of `CompatUtility::GetCheckableNotifyOnUnknown`. -/
def GetCheckableNotifyOnUnknown (K : FilterConstants) (checkable : Checkable) : Int :=
  if int_bits (GetCheckableNotificationStateFilter checkable) &&& K.ServiceUnknown.val ≠ 0 then 1
  else 0

/-- Model of `CompatUtility::GetCheckableNotifyOnRecovery`. -/
def GetCheckableNotifyOnRecovery (K : FilterConstants) (checkable : Checkable) : Int :=
  if int_bits (GetCheckableNotificationTypeFilter checkable) &&& K.NotificationRecovery.val ≠ 0
  then 1
  else 0

/-- Model of `CompatUtility::GetCheckableNotifyOnFlapping`. -/
def GetCheckableNotifyOnFlapping (K : FilterConstants) (checkable : Checkable) : Int :=
  let notification_type_filter :=
    int_to_ulong (GetCheckableNotificationTypeFilter checkable)
  if notification_type_filter &&& K.NotificationFlappingStart.toULong ≠ 0 ∨
      notification_type_filter &&& K.NotificationFlappingEnd.toULong ≠ 0 then 1
  else 0

/-- Model of `CompatUtility::GetCheckableNotifyOnDowntime`. -/
def GetCheckableNotifyOnDowntime (K : FilterConstants) (checkable : Checkable) : Int :=
  let notification_type_filter :=
    int_to_ulong (GetCheckableNotificationTypeFilter checkable)
  if notification_type_filter &&& K.NotificationDowntimeStart.toULong ≠ 0 ∨
      notification_type_filter &&& K.NotificationDowntimeEnd.toULong ≠ 0 ∨
      notification_type_filter &&& K.NotificationDowntimeRemoved.toULong ≠ 0 then 1
  else 0

/-- Some notification has a state filter that contains a bit of the mask. -/
def some_state_filter_has (notifications : List Notification) (mask : CInt) : Prop :=
  ∃ n ∈ notifications, n.state_filter.val &&& mask.val ≠ 0

/-- Some notification has a type filter that contains a bit of the mask. -/
def some_type_filter_has (notifications : List Notification) (mask : CInt) : Prop :=
  ∃ n ∈ notifications, n.type_filter.val &&& mask.val ≠ 0

/-- A flag is 1 exactly when the condition holds, and 0 exactly when it does
not. -/
def flag_is (flag : Int) (condition : Prop) : Prop :=
  (flag = 1 ↔ condition) ∧ (flag = 0 ↔ ¬ condition)

/-- A sample of the filter constants: the service states 1, 2 and 3, the
notification types as single bits. -/
def sample_constants : FilterConstants :=
  ⟨1, 2, 3, 64, 128, 256, 1, 2, 4⟩

/-- Whether a dictionary has a pair with the given key. -/
def has_key (d : Dictionary) (key : Str) : Prop :=
  ∃ v, (key, v) ∈ d

/-- The short form of a reference to a variable, `$key$`. -/
def short_form (key : Str) : Str :=
  ['$'] ++ key ++ ['$']

/-- A host that is up and reachable, without notifications, with the given
check command and variables. -/
def host_with (command : Option Command) (vars : Option Dictionary) : Host :=
  ⟨⟨[], false⟩, command, vars, HostState.HostUp, true⟩

/-- The invocation text of the example: `check_http` with the host address
and the port as macros. -/
def example_command_line : Str :=
  "check_http -H $host.vars.address$ -p $port$".toList

/-- The host of the example: its variables bind `address`, and its check
command has the example invocation text and variables that bind `port` and
`xyz`. -/
def example_host : Host :=
  host_with
    (some ⟨CommandType.CheckCommand, "http".toList, Value.scalar example_command_line,
      some [("port".toList, "443".toList), ("xyz".toList, "1".toList)]⟩)
    (some [("address".toList, "10.0.0.1".toList)])

/-- A host for the collision of a key: the command variables bind `k` to `1`,
the host variables bind `k` to `2`, and the invocation text is `echo $k$`. -/
def collision_host : Host :=
  host_with
    (some ⟨CommandType.CheckCommand, "echo".toList, Value.scalar "echo $k$".toList,
      some [("k".toList, "1".toList)]⟩)
    (some [("k".toList, "2".toList)])

/-- A host whose command variables bind `port` and whose invocation text
refers only to the macro `$reportport$`. -/
def reportport_host : Host :=
  host_with
    (some ⟨CommandType.CheckCommand, "tcp".toList,
      Value.scalar "check_tcp -p $reportport$".toList,
      some [("port".toList, "443".toList)]⟩)
    none

/-! ## Facts about the string helpers -/

theorem replace_all_nil (pat rep : Str) : replace_all [] pat rep = [] := rfl

/-- Replacing a one-character pattern by one character is a character map. -/
theorem replace_all_char (a b : Char) (s : Str) :
    replace_all s [a] [b] = s.map (fun c => if c = a then b else c) := by
  induction s with
  | nil => rfl
  | cons c cs ih =>
    unfold replace_all at ih ⊢
    by_cases h : c = a
    · subst h
      simp [replace_all_from, ih]
    · have h2 : ¬ a = c := fun e => h e.symm
      simp [replace_all_from, ih, h, h2]

theorem EscapeString_nil : EscapeString [] = [] := rfl

theorem EscapeString_cons_LF (cs : Str) :
    EscapeString (LF :: cs) = BSL :: 'n' :: EscapeString cs := by
  simp [EscapeString, replace_all, replace_all_from]

theorem EscapeString_cons_ne (c : Char) (cs : Str) (h : c ≠ LF) :
    EscapeString (c :: cs) = c :: EscapeString cs := by
  have h2 : ¬ LF = c := fun e => h e.symm
  simp [EscapeString, replace_all, replace_all_from, h2]

theorem UnEscapeString_nil : UnEscapeString [] = [] := rfl

theorem UnEscapeString_match (cs : Str) :
    UnEscapeString (BSL :: 'n' :: cs) = LF :: UnEscapeString cs := by
  simp [UnEscapeString, replace_all, replace_all_from]

theorem UnEscapeString_skip (c : Char) (cs : Str)
    (h : ¬ ([BSL, 'n'] <+: c :: cs)) :
    UnEscapeString (c :: cs) = c :: UnEscapeString cs := by
  have h2 : [BSL, 'n'].isPrefixOf (c :: cs) = false := by
    rw [Bool.eq_false_iff]
    intro e
    exact h (List.isPrefixOf_iff_prefix.mp e)
  simp only [UnEscapeString, replace_all, replace_all_from, h2]
  simp

/-- The escaped text starts with `n` only when the text itself does. -/
theorem EscapeString_head_n (s rest : Str) (h : EscapeString s = 'n' :: rest) :
    ∃ t, s = 'n' :: t := by
  cases s with
  | nil => simp [EscapeString_nil] at h
  | cons c cs =>
    by_cases hc : c = LF
    · subst hc
      rw [EscapeString_cons_LF] at h
      simp [BSL] at h
    · rw [EscapeString_cons_ne c cs hc] at h
      simp only [List.cons.injEq] at h
      exact ⟨cs, by rw [h.1]⟩

/-- The escaped text holds no line-break. -/
theorem EscapeString_no_LF (s : Str) : LF ∉ EscapeString s := by
  induction s with
  | nil => simp [EscapeString_nil]
  | cons c cs ih =>
    by_cases hc : c = LF
    · subst hc
      rw [EscapeString_cons_LF]
      simp only [List.mem_cons, not_or]
      exact ⟨by decide, by decide, ih⟩
    · rw [EscapeString_cons_ne c cs hc]
      simp only [List.mem_cons, not_or]
      exact ⟨fun e => hc e.symm, ih⟩

/-- Escaping adds no character other than a backslash or an `n`. -/
theorem mem_EscapeString (s : Str) (x : Char) (h : x ∈ EscapeString s) :
    x ∈ s ∨ x = BSL ∨ x = 'n' := by
  induction s with
  | nil => simp [EscapeString_nil] at h
  | cons c cs ih =>
    by_cases hc : c = LF
    · subst hc
      rw [EscapeString_cons_LF] at h
      simp only [List.mem_cons] at h ⊢
      rcases h with h | h | h
      · exact Or.inr (Or.inl h)
      · exact Or.inr (Or.inr h)
      · rcases ih h with h1 | h1
        · exact Or.inl (Or.inr h1)
        · exact Or.inr h1
    · rw [EscapeString_cons_ne c cs hc] at h
      simp only [List.mem_cons] at h ⊢
      rcases h with h | h
      · exact Or.inl (Or.inl h)
      · rcases ih h with h1 | h1
        · exact Or.inl (Or.inr h1)
        · exact Or.inr h1

/-- C1. Escaping and then unescaping gives the text back, for every text that
does not contain the two-character sequence backslash, `n`. -/
theorem UnEscapeString_EscapeString (s : Str) (h : ¬ ([BSL, 'n'] <:+: s)) :
    UnEscapeString (EscapeString s) = s := by
  induction s with
  | nil => rfl
  | cons c cs ih =>
    have hcs : ¬ ([BSL, 'n'] <:+: cs) := fun e => h (List.infix_cons e)
    by_cases hc : c = LF
    · subst hc
      rw [EscapeString_cons_LF, UnEscapeString_match, ih hcs]
    · rw [EscapeString_cons_ne c cs hc, UnEscapeString_skip, ih hcs]
      intro hp
      obtain ⟨t, ht⟩ := hp
      simp only [List.cons_append, List.nil_append, List.cons.injEq] at ht
      obtain ⟨hb, he⟩ := ht
      obtain ⟨u, hu⟩ := EscapeString_head_n cs t he.symm
      apply h
      rw [← hb, hu]
      exact (List.prefix_append [BSL, 'n'] u).isInfix

/-- C1, at a text in which a backslash stands right before a line-break. -/
theorem UnEscapeString_EscapeString_witness :
    ¬ ([BSL, 'n'] <:+: ['a', BSL, LF, 'b']) ∧
      UnEscapeString (EscapeString ['a', BSL, LF, 'b']) = ['a', BSL, LF, 'b'] :=
  ⟨by decide, UnEscapeString_EscapeString ['a', BSL, LF, 'b'] (by decide)⟩

/-! ## Splitting the check output -/

theorem Find_LF_nil : Find [LF] [] = none := rfl

theorem Find_LF_cons_LF (cs : Str) : Find [LF] (LF :: cs) = some 0 := by
  simp [Find]

theorem Find_LF_cons_ne (c : Char) (cs : Str) (h : c ≠ LF) :
    Find [LF] (c :: cs) = (Find [LF] cs).map (fun i => i + 1) := by
  have h2 : ¬ LF = c := fun e => h e.symm
  simp [Find, h2]

theorem Find_LF_eq_none (s : Str) : Find [LF] s = none ↔ LF ∉ s := by
  induction s with
  | nil => simp [Find_LF_nil]
  | cons c cs ih =>
    by_cases hc : c = LF
    · subst hc
      simp [Find_LF_cons_LF]
    · have h2 : ¬ LF = c := fun e => hc e.symm
      rw [Find_LF_cons_ne c cs hc]
      simp [ih, h2]

/-- The text up to the position found is the text before the first break. -/
theorem SubStr_Find_LF (s : Str) :
    SubStr s 0 (Find [LF] s) = before_first_break s := by
  induction s with
  | nil => rfl
  | cons c cs ih =>
    by_cases hc : c = LF
    · subst hc
      simp [Find_LF_cons_LF, SubStr, before_first_break]
    · rw [Find_LF_cons_ne c cs hc]
      have hb : (c != LF) = true := by simpa using hc
      cases hf : Find [LF] cs with
      | none =>
        rw [hf] at ih
        simp only [SubStr, List.drop_zero, before_first_break] at ih ⊢
        simp only [Option.map_none', List.drop_zero]
        rw [List.takeWhile_cons, hb]
        simp only [if_true]
        rw [← ih]
      | some k =>
        rw [hf] at ih
        simp only [SubStr, List.drop_zero, before_first_break] at ih ⊢
        simp only [Option.map_some', List.drop_zero, List.take_succ_cons]
        rw [List.takeWhile_cons, hb]
        simp only [if_true]
        rw [← ih]

/-- The text from just after the position found is the text after the first
break. -/
theorem drop_Find_LF (s : Str) (k : Nat) (h : Find [LF] s = some k) :
    s.drop (k + 1) = after_first_break s := by
  induction s generalizing k with
  | nil => simp [Find_LF_nil] at h
  | cons c cs ih =>
    by_cases hc : c = LF
    · subst hc
      rw [Find_LF_cons_LF] at h
      have hk : k = 0 := by simpa using h.symm
      subst hk
      simp [after_first_break]
    · rw [Find_LF_cons_ne c cs hc] at h
      have hb : (c != LF) = true := by simpa using hc
      cases hf : Find [LF] cs with
      | none => rw [hf] at h; simp at h
      | some j =>
        rw [hf] at h
        have hk : k = j + 1 := by simpa using h.symm
        subst hk
        have := ih j hf
        simp only [after_first_break] at this ⊢
        rw [List.dropWhile_cons, hb]
        simpa using this

theorem sanitized_eq (raw : Str) : replace_all raw [';'] [':'] = sanitized raw :=
  replace_all_char ';' ':' raw

theorem LF_mem_sanitized (raw : Str) : LF ∈ sanitized raw ↔ LF ∈ raw := by
  induction raw with
  | nil => simp [sanitized]
  | cons c cs ih =>
    simp only [sanitized, List.map_cons, List.mem_cons] at ih ⊢
    rw [ih]
    by_cases h : c = ';'
    · subst h
      simp [LF]
    · simp [h]

theorem semicolon_not_mem_sanitized (raw : Str) : ';' ∉ sanitized raw := by
  intro h
  simp only [sanitized, List.mem_map] at h
  obtain ⟨c, _, hc⟩ := h
  by_cases h2 : c = ';'
  · simp [h2] at hc
  · simp [h2] at hc

theorem after_first_break_sanitized (raw : Str) :
    after_first_break (sanitized raw) = sanitized (after_first_break raw) := by
  induction raw with
  | nil => rfl
  | cons c cs ih =>
    simp only [after_first_break, sanitized, List.map_cons] at ih ⊢
    by_cases hc : c = LF
    · subst hc
      simp [LF]
    · by_cases h2 : c = ';'
      · subst h2
        simpa [LF] using ih
      · have hb : (c != LF) = true := by simpa using hc
        simp only [h2, if_false, List.dropWhile_cons, hb, if_true]
        exact ih

theorem GetCheckResultOutput_eq (raw : Str) :
    GetCheckResultOutput (some ⟨raw⟩) = before_first_break (sanitized raw) := by
  simp only [GetCheckResultOutput, sanitized_eq]
  exact SubStr_Find_LF (sanitized raw)

/-- The long output is empty or the escaped remainder of the sanitized text
after its first break. -/
theorem GetCheckResultLongOutput_cases (raw : Str) :
    GetCheckResultLongOutput (some ⟨raw⟩) = [] ∨
      GetCheckResultLongOutput (some ⟨raw⟩) =
        EscapeString (after_first_break (sanitized raw)) := by
  simp only [GetCheckResultLongOutput, sanitized_eq]
  cases hf : Find [LF] (sanitized raw) with
  | none => exact Or.inl rfl
  | some k =>
    cases k with
    | zero => exact Or.inl rfl
    | succ j =>
      right
      simp only [SubStr]
      rw [List.take_of_length_le (by simp), drop_Find_LF _ _ hf]

theorem Find_LF_eq_zero (s : Str) : Find [LF] s = some 0 ↔ s.head? = some LF := by
  cases s with
  | nil => simp [Find_LF_nil]
  | cons c cs =>
    by_cases hc : c = LF
    · subst hc
      simp [Find_LF_cons_LF]
    · rw [Find_LF_cons_ne c cs hc]
      cases hf : Find [LF] cs <;> simp [hc]

theorem head_sanitized (raw : Str) :
    (sanitized raw).head? = some LF ↔ raw.head? = some LF := by
  cases raw with
  | nil => simp [sanitized]
  | cons c cs =>
    by_cases h : c = ';'
    · subst h
      simp [sanitized, LF]
    · simp [sanitized, h]

/-- The long output of a text that begins with a line-break is empty. -/
theorem GetCheckResultLongOutput_leading (raw : Str) (h : raw.head? = some LF) :
    GetCheckResultLongOutput (some ⟨raw⟩) = [] := by
  have hf : Find [LF] (sanitized raw) = some 0 :=
    (Find_LF_eq_zero _).mpr ((head_sanitized raw).mpr h)
  simp only [GetCheckResultLongOutput, sanitized_eq, hf]

/-- The long output of a text without line-break is empty. -/
theorem GetCheckResultLongOutput_no_break (raw : Str) (h : LF ∉ raw) :
    GetCheckResultLongOutput (some ⟨raw⟩) = [] := by
  have hf : Find [LF] (sanitized raw) = none :=
    (Find_LF_eq_none _).mpr (fun e => h ((LF_mem_sanitized raw).mp e))
  simp only [GetCheckResultLongOutput, sanitized_eq, hf]

/-- The long output of a text whose first line-break is not its first
character. -/
theorem GetCheckResultLongOutput_inner (raw : Str) (h1 : LF ∈ raw)
    (h2 : raw.head? ≠ some LF) :
    GetCheckResultLongOutput (some ⟨raw⟩) =
      EscapeString (sanitized (after_first_break raw)) := by
  rw [← after_first_break_sanitized]
  simp only [GetCheckResultLongOutput, sanitized_eq]
  cases hf : Find [LF] (sanitized raw) with
  | none =>
    exact absurd ((LF_mem_sanitized raw).mpr h1) ((Find_LF_eq_none _).mp hf)
  | some k =>
    cases k with
    | zero =>
      exact absurd ((head_sanitized raw).mp ((Find_LF_eq_zero _).mp hf)) h2
    | succ j =>
      simp only [SubStr]
      rw [List.take_of_length_le (by simp), drop_Find_LF _ _ hf]

/-! ## The claims about the check output -/

/-- C2, as stated, fails: the raw output `"\nlong;detail"` contains a
line-break, the text after its first line-break with semicolons replaced
escapes to `"long:detail"`, and the long output returned is empty. -/
theorem GetCheckResultLongOutput_leading_break_counterexample :
    LF ∈ "\nlong;detail".toList ∧
      EscapeString (sanitized (after_first_break "\nlong;detail".toList)) =
        "long:detail".toList ∧
      GetCheckResultLongOutput (some ⟨"\nlong;detail".toList⟩) = [] ∧
      GetCheckResultLongOutput (some ⟨"\nlong;detail".toList⟩) ≠
        EscapeString (sanitized (after_first_break "\nlong;detail".toList)) := by
  decide

/-- C2, amended. For a present check result whose raw output contains a
line-break and does not begin with one, the long output is the escaped text
after the first line-break of the raw output with every semicolon replaced by
a colon; for a raw output that begins with a line-break it is empty. -/
theorem GetCheckResultLongOutput_spec (raw : Str) :
    (LF ∈ raw ∧ raw.head? ≠ some LF →
      GetCheckResultLongOutput (some ⟨raw⟩) =
        EscapeString (sanitized (after_first_break raw))) ∧
    (raw.head? = some LF → GetCheckResultLongOutput (some ⟨raw⟩) = []) :=
  ⟨fun h => GetCheckResultLongOutput_inner raw h.1 h.2,
   GetCheckResultLongOutput_leading raw⟩

/-- C2, amended, at `"short;line\nlong;detail"`: the long output is
`"long:detail"`. -/
theorem GetCheckResultLongOutput_spec_witness :
    (LF ∈ "short;line\nlong;detail".toList ∧
      "short;line\nlong;detail".toList.head? ≠ some LF) ∧
    GetCheckResultLongOutput (some ⟨"short;line\nlong;detail".toList⟩) =
      "long:detail".toList :=
  ⟨by decide,
   ((GetCheckResultLongOutput_spec "short;line\nlong;detail".toList).1
      (by decide)).trans (by decide)⟩

/-- C3. For a present check result the short output is the raw output with
every semicolon replaced by a colon, cut just before its first line-break;
without a line-break it is the whole sanitized text and the long output is
empty. -/
theorem GetCheckResultOutput_spec (raw : Str) :
    GetCheckResultOutput (some ⟨raw⟩) = before_first_break (sanitized raw) ∧
    (LF ∉ raw →
      GetCheckResultOutput (some ⟨raw⟩) = sanitized raw ∧
      GetCheckResultLongOutput (some ⟨raw⟩) = []) := by
  refine ⟨GetCheckResultOutput_eq raw, fun h => ⟨?_, GetCheckResultLongOutput_no_break raw h⟩⟩
  rw [GetCheckResultOutput_eq, before_first_break, List.takeWhile_eq_self_iff]
  intro c hc
  have : c ≠ LF := fun e => h ((LF_mem_sanitized raw).mp (e ▸ hc))
  simpa using this

/-- C3 at `"justshort"`: the short output is `"justshort"` and the long output
is empty. -/
theorem GetCheckResultOutput_spec_witness :
    LF ∉ "justshort".toList ∧
    GetCheckResultOutput (some ⟨"justshort".toList⟩) = "justshort".toList ∧
    GetCheckResultLongOutput (some ⟨"justshort".toList⟩) = [] :=
  ⟨by decide,
   (((GetCheckResultOutput_spec "justshort".toList).2 (by decide)).1).trans (by decide),
   ((GetCheckResultOutput_spec "justshort".toList).2 (by decide)).2⟩

/-- C4. For every check result, absent or present, neither the short output
nor the long output contains a semicolon or a line-break. -/
theorem outputs_delimiter_safe (cr : Option CheckResult) :
    ';' ∉ GetCheckResultOutput cr ∧ LF ∉ GetCheckResultOutput cr ∧
    ';' ∉ GetCheckResultLongOutput cr ∧ LF ∉ GetCheckResultLongOutput cr := by
  cases cr with
  | none => simp [GetCheckResultOutput, GetCheckResultLongOutput]
  | some r =>
    obtain ⟨raw⟩ := r
    have hs : ∀ t : Str, t.Sublist (sanitized raw) → ';' ∉ t :=
      fun t ht e => semicolon_not_mem_sanitized raw (ht.subset e)
    refine ⟨?_, ?_, ?_, ?_⟩
    · rw [GetCheckResultOutput_eq]
      exact hs _ (List.takeWhile_sublist _)
    · rw [GetCheckResultOutput_eq]
      intro e
      have := List.mem_takeWhile_imp e
      simp at this
    · rcases GetCheckResultLongOutput_cases raw with h | h
      · rw [h]; simp
      · rw [h]
        intro e
        rcases mem_EscapeString _ _ e with h1 | h1 | h1
        · exact hs _ (((List.dropWhile_sublist _).drop 1).trans
            (List.drop_sublist 1 _) |>.trans (List.Sublist.refl _)) h1
        · exact absurd h1 (by decide)
        · exact absurd h1 (by decide)
    · rcases GetCheckResultLongOutput_cases raw with h | h
      · rw [h]; simp
      · rw [h]
        exact EscapeString_no_LF _

/-! ## Filter aggregation -/

theorem foldl_lor_eq {α : Type} (f : α → Nat) (l : List α) (a : Nat) :
    l.foldl (fun acc x => acc ||| f x) a = a ||| or_of_filters (l.map f) := by
  induction l generalizing a with
  | nil => simp [or_of_filters]
  | cons x xs ih =>
    simp only [List.foldl_cons, List.map_cons, or_of_filters, List.foldr_cons] at ih ⊢
    rw [ih, Nat.lor_assoc]

theorem or_of_filters_lt (k : Nat) (fs : List Nat) (h : ∀ f ∈ fs, f < 2 ^ k) :
    or_of_filters fs < 2 ^ k := by
  induction fs with
  | nil => simp [or_of_filters]
  | cons x xs ih =>
    simp only [or_of_filters, List.foldr_cons] at ih ⊢
    exact Nat.or_lt_two_pow (h x (List.mem_cons_self x xs))
      (ih (fun f hf => h f (List.mem_cons_of_mem x hf)))

theorem testBit_or_of_filters (fs : List Nat) (i : Nat) :
    (or_of_filters fs).testBit i = true ↔ ∃ f ∈ fs, f.testBit i = true := by
  induction fs with
  | nil => simp [or_of_filters]
  | cons x xs ih =>
    simp only [or_of_filters, List.foldr_cons] at ih ⊢
    rw [Nat.testBit_lor, Bool.or_eq_true, ih]
    simp

/-- The low 32 bits of an OR are the OR of the low 32 bits. -/
theorem lor_mod_two_pow (a b : Nat) : (a ||| b) % 2 ^ 32 = a % 2 ^ 32 ||| b % 2 ^ 32 := by
  apply Nat.eq_of_testBit_eq
  intro i
  simp only [Nat.testBit_mod_two_pow, Nat.testBit_or]
  cases decide (i < 32) <;> simp

/-- The pattern of the `int` that an `unsigned long` converts to is its low
32 bits. -/
theorem int_bits_ulong_to_int (m : Nat) : int_bits (ulong_to_int m) = m % 2 ^ 32 := by
  unfold int_bits ulong_to_int
  split_ifs <;> omega

/-- Converting to `int` and back to `unsigned long` keeps the low 32 bits. -/
theorem int_to_ulong_ulong_to_int_mod (m : Nat) :
    int_to_ulong (ulong_to_int m) % 2 ^ 32 = m % 2 ^ 32 := by
  unfold int_to_ulong ulong_to_int
  split_ifs <;> omega

theorem ulong_to_int_mod (m : Nat) : ulong_to_int (m % 2 ^ 32) = ulong_to_int m := by
  unfold ulong_to_int
  rw [Nat.mod_mod]

theorem toULong_mod (p : CInt) : p.toULong % 2 ^ 32 = p.val := by
  unfold CInt.toULong CInt.toInt
  rw [int_to_ulong_ulong_to_int_mod]
  have := p.isLt
  omega

/-- The low 32 bits of the accumulator after the loop are the OR of the
patterns of the filters. -/
theorem aggregate_mod {α : Type} (f : α → CInt) (l : List α) :
    (l.foldl (fun acc x => acc ||| (f x).toULong) 0) % 2 ^ 32 =
      or_of_filters (l.map (fun x => (f x).val)) := by
  rw [foldl_lor_eq (fun x => (f x).toULong), Nat.zero_or]
  induction l with
  | nil => simp [or_of_filters]
  | cons x xs ih =>
    simp only [List.map_cons, or_of_filters, List.foldr_cons] at ih ⊢
    rw [lor_mod_two_pow, toULong_mod, ih]

theorem patterns_lt {α : Type} (f : α → CInt) (l : List α) :
    or_of_filters (l.map (fun x => (f x).val)) < 2 ^ 32 := by
  apply or_of_filters_lt
  intro p hp
  obtain ⟨x, _, rfl⟩ := List.mem_map.mp hp
  have := (f x).isLt
  omega

/-- The aggregated state filter is the `int` whose pattern is the OR of the
patterns of the state filters. -/
theorem state_filter_eq_or (checkable : Checkable) :
    GetCheckableNotificationStateFilter checkable =
      ulong_to_int (or_of_filters (checkable.notifications.map (fun n => n.state_filter.val))) := by
  unfold GetCheckableNotificationStateFilter
  rw [← ulong_to_int_mod, aggregate_mod (fun n : Notification => n.state_filter)]

/-- The aggregated type filter is the `int` whose pattern is the OR of the
patterns of the type filters. -/
theorem type_filter_eq_or (checkable : Checkable) :
    GetCheckableNotificationTypeFilter checkable =
      ulong_to_int (or_of_filters (checkable.notifications.map (fun n => n.type_filter.val))) := by
  unfold GetCheckableNotificationTypeFilter
  rw [← ulong_to_int_mod, aggregate_mod (fun n : Notification => n.type_filter)]

theorem state_filter_bits (checkable : Checkable) :
    int_bits (GetCheckableNotificationStateFilter checkable) =
      or_of_filters (checkable.notifications.map (fun n => n.state_filter.val)) := by
  rw [state_filter_eq_or, int_bits_ulong_to_int]
  exact Nat.mod_eq_of_lt (patterns_lt (fun n : Notification => n.state_filter) _)

theorem type_filter_bits (checkable : Checkable) :
    int_bits (GetCheckableNotificationTypeFilter checkable) =
      or_of_filters (checkable.notifications.map (fun n => n.type_filter.val)) := by
  rw [type_filter_eq_or, int_bits_ulong_to_int]
  exact Nat.mod_eq_of_lt (patterns_lt (fun n : Notification => n.type_filter) _)

/-- C5. For every notification set, the aggregated state filter and type
filter are the bitwise OR of the filters of the notifications: each is the
`int` whose bit pattern is the OR of the bit patterns of the filters, a bit is
set in an aggregate exactly when it is set in the filter of some
notification, and both aggregates are 0 for the empty set. -/
theorem notification_filters_are_or (checkable : Checkable) :
    GetCheckableNotificationStateFilter checkable =
      ulong_to_int (or_of_filters (checkable.notifications.map (fun n => n.state_filter.val))) ∧
    GetCheckableNotificationTypeFilter checkable =
      ulong_to_int (or_of_filters (checkable.notifications.map (fun n => n.type_filter.val))) ∧
    int_bits (GetCheckableNotificationStateFilter checkable) =
      or_of_filters (checkable.notifications.map (fun n => n.state_filter.val)) ∧
    int_bits (GetCheckableNotificationTypeFilter checkable) =
      or_of_filters (checkable.notifications.map (fun n => n.type_filter.val)) ∧
    (∀ i, (int_bits (GetCheckableNotificationStateFilter checkable)).testBit i = true ↔
        ∃ n ∈ checkable.notifications, n.state_filter.val.testBit i = true) ∧
    (∀ i, (int_bits (GetCheckableNotificationTypeFilter checkable)).testBit i = true ↔
        ∃ n ∈ checkable.notifications, n.type_filter.val.testBit i = true) ∧
    (checkable.notifications = [] →
        GetCheckableNotificationStateFilter checkable = 0 ∧
        GetCheckableNotificationTypeFilter checkable = 0) := by
  refine ⟨state_filter_eq_or checkable, type_filter_eq_or checkable,
    state_filter_bits checkable, type_filter_bits checkable, ?_, ?_, ?_⟩
  · intro i
    rw [state_filter_bits, testBit_or_of_filters]
    simp
  · intro i
    rw [type_filter_bits, testBit_or_of_filters]
    simp
  · intro he
    rw [state_filter_eq_or, type_filter_eq_or, he]
    exact ⟨rfl, rfl⟩

/-- C5 at two notifications with the state filters 4 and -1 (every bit set)
and the type filters 1 and 8: the aggregates are -1 and 9. -/
theorem notification_filters_are_or_witness :
    (4294967295 : CInt).toInt = -1 ∧
    GetCheckableNotificationStateFilter
        (Checkable.mk [notification_filtering 4 1, notification_filtering 4294967295 8]
          false) = -1 ∧
    GetCheckableNotificationTypeFilter
        (Checkable.mk [notification_filtering 4 1, notification_filtering 4294967295 8]
          false) = 9 :=
  ⟨by decide,
   ((notification_filters_are_or
      (Checkable.mk [notification_filtering 4 1, notification_filtering 4294967295 8]
        false)).1).trans (by decide),
   ((notification_filters_are_or
      (Checkable.mk [notification_filtering 4 1, notification_filtering 4294967295 8]
        false)).2.1).trans (by decide)⟩

/-! ## Order of the notifications -/

/-- The aggregated filters, the last-notification timestamp and the
notification number do not depend on the order in which the notifications are
visited. -/
theorem filters_last_number_order_independent (l₁ l₂ : List Notification)
    (v : Bool) (h : l₁.Perm l₂) :
    GetCheckableNotificationStateFilter ⟨l₁, v⟩ = GetCheckableNotificationStateFilter ⟨l₂, v⟩ ∧
    GetCheckableNotificationTypeFilter ⟨l₁, v⟩ = GetCheckableNotificationTypeFilter ⟨l₂, v⟩ ∧
    GetCheckableNotificationLastNotification ⟨l₁, v⟩ =
      GetCheckableNotificationLastNotification ⟨l₂, v⟩ ∧
    GetCheckableNotificationNotificationNumber ⟨l₁, v⟩ =
      GetCheckableNotificationNotificationNumber ⟨l₂, v⟩ := by
  refine ⟨?_, ?_, ?_, ?_⟩
  · simp only [GetCheckableNotificationStateFilter]
    haveI : RightCommutative
        (fun (acc : Nat) (n : Notification) => acc ||| n.state_filter.toULong) :=
      ⟨fun b x y => by simp only [Nat.lor_assoc, Nat.lor_comm x.state_filter.toULong]⟩
    rw [h.foldl_eq]
  · simp only [GetCheckableNotificationTypeFilter]
    haveI : RightCommutative
        (fun (acc : Nat) (n : Notification) => acc ||| n.type_filter.toULong) :=
      ⟨fun b x y => by simp only [Nat.lor_assoc, Nat.lor_comm x.type_filter.toULong]⟩
    rw [h.foldl_eq]
  · simp only [GetCheckableNotificationLastNotification]
    haveI : RightCommutative (fun (acc : ℚ) (n : Notification) =>
        if n.last_notification > acc then n.last_notification else acc) :=
      ⟨fun b x y => by
        split_ifs <;> first | rfl | (apply le_antisymm <;> linarith)⟩
    rw [h.foldl_eq]
  · simp only [GetCheckableNotificationNotificationNumber]
    haveI : RightCommutative (fun (acc : Int) (n : Notification) =>
        if n.notification_number > acc then n.notification_number else acc) :=
      ⟨fun b x y => by
        split_ifs <;> first | rfl | omega⟩
    rw [h.foldl_eq]

/-- C6 fails on the code: the notification with interval 300 and next
notification at 5 and the notification with unset interval (-1) and no next
notification (0) aggregate to next notification 0 and interval 1 minute in one
order, and to next notification 5 and interval 5 minutes in the other. -/
theorem next_and_interval_order_dependent :
    [notification_at 300 0 5 0, notification_at (-1) 0 0 0].Perm
      [notification_at (-1) 0 0 0, notification_at 300 0 5 0] ∧
    GetCheckableNotificationNextNotification
      ⟨[notification_at 300 0 5 0, notification_at (-1) 0 0 0], false⟩ = 0 ∧
    GetCheckableNotificationNextNotification
      ⟨[notification_at (-1) 0 0 0, notification_at 300 0 5 0], false⟩ = 5 ∧
    GetCheckableNotificationNotificationInterval
      ⟨[notification_at 300 0 5 0, notification_at (-1) 0 0 0], false⟩ = 1 ∧
    GetCheckableNotificationNotificationInterval
      ⟨[notification_at (-1) 0 0 0, notification_at 300 0 5 0], false⟩ = 5 := by
  refine ⟨by decide, by decide, by decide, ?_, ?_⟩
  · norm_num [GetCheckableNotificationNotificationInterval, notification_interval_seconds,
      notification_at]
  · norm_num [GetCheckableNotificationNotificationInterval, notification_interval_seconds,
      notification_at]

/-- C7 fails on the code: for the notifications with next notification at
1000 and at 0, visited in this order, the function returns 0, while the
minimum over the nonzero timestamps is 1000. -/
theorem next_notification_reset_by_zero :
    GetCheckableNotificationNextNotification
      ⟨[notification_at 1800 0 1000 0, notification_at 1800 0 0 0], false⟩ = 0 ∧
    spec_next_notification
      [notification_at 1800 0 1000 0, notification_at 1800 0 0 0] = 1000 := by
  decide

/-- C8 fails on the code: for the notifications with interval 300 and with
unset interval (-1), visited in this order, the function returns 1 minute (the
60 second default), while the minimum over the set intervals is 300 seconds,
5 minutes. -/
theorem notification_interval_reset_by_unset :
    GetCheckableNotificationNotificationInterval
      ⟨[notification_at 300 0 0 0, notification_at (-1) 0 0 0], false⟩ = 1 ∧
    spec_notification_interval
      [notification_at 300 0 0 0, notification_at (-1) 0 0 0] = 5 := by
  constructor
  · norm_num [GetCheckableNotificationNotificationInterval, notification_interval_seconds,
      notification_at]
  · norm_num [spec_notification_interval, minimum_of, notification_at]

/-! ## Where the two minimum loops agree with the specification -/

/-- The running minimum of a loop that starts from a value `a` other than the
sentinel `z` and meets no sentinel-valued element. -/
theorem foldl_min_of_ne {α : Type} (g : α → ℚ) (z : ℚ) (l : List α) (a : ℚ)
    (ha : a ≠ z) (h : ∀ x ∈ l, g x ≠ z) :
    l.foldl (fun acc x => if acc = z ∨ g x < acc then g x else acc) a =
      match minimum_of (l.map g) with
      | none => a
      | some m => min a m := by
  induction l generalizing a with
  | nil => rfl
  | cons x xs ih =>
    have hx : g x ≠ z := h x (List.mem_cons_self x xs)
    have hxs : ∀ y ∈ xs, g y ≠ z := fun y hy => h y (List.mem_cons_of_mem x hy)
    have hstep : (if a = z ∨ g x < a then g x else a) = min a (g x) := by
      by_cases hlt : g x < a
      · rw [if_pos (Or.inr hlt), min_eq_right hlt.le]
      · rw [if_neg (fun e => e.elim ha hlt), min_eq_left (not_lt.mp hlt)]
    have hne : min a (g x) ≠ z := by
      rcases min_choice a (g x) with e | e <;> rw [e] <;> assumption
    simp only [List.foldl_cons, List.map_cons, minimum_of]
    rw [hstep, ih (min a (g x)) hne hxs]
    cases minimum_of (xs.map g) with
    | none => rfl
    | some m => simp only [min_assoc]

/-- A loop that starts from the sentinel and meets no sentinel-valued element
ends with the minimum, or with the sentinel when there is no element. -/
theorem foldl_min_from_sentinel {α : Type} (g : α → ℚ) (z : ℚ) (l : List α)
    (h : ∀ x ∈ l, g x ≠ z) :
    l.foldl (fun acc x => if acc = z ∨ g x < acc then g x else acc) z =
      (minimum_of (l.map g)).getD z := by
  cases l with
  | nil => rfl
  | cons x xs =>
    have hx : g x ≠ z := h x (List.mem_cons_self x xs)
    have hxs : ∀ y ∈ xs, g y ≠ z := fun y hy => h y (List.mem_cons_of_mem x hy)
    simp only [List.foldl_cons, true_or, if_true, List.map_cons, minimum_of]
    rw [foldl_min_of_ne g z xs (g x) hx hxs]
    cases minimum_of (xs.map g) <;> rfl

/-- When no notification has a zero next-notification timestamp, the loop
ends with the specified minimum. -/
theorem next_notification_loop_of_nonzero (ns : List Notification)
    (h : ∀ n ∈ ns, n.next_notification ≠ 0) :
    next_notification_loop ns = spec_next_notification ns := by
  unfold next_notification_loop spec_next_notification
  rw [foldl_min_from_sentinel (fun n : Notification => n.next_notification) 0 ns h]
  congr 2
  symm
  rw [List.filter_eq_self]
  intro t ht
  obtain ⟨n, hn, rfl⟩ := List.mem_map.mp ht
  simpa using h n hn

/-- When no notification has the interval -1, the aggregated interval is the
specified one. -/
theorem notification_interval_of_set (ns : List Notification) (v : Bool)
    (h : ∀ n ∈ ns, n.interval ≠ -1) :
    GetCheckableNotificationNotificationInterval ⟨ns, v⟩ = spec_notification_interval ns := by
  unfold GetCheckableNotificationNotificationInterval notification_interval_seconds
    spec_notification_interval
  simp only
  rw [foldl_min_from_sentinel (fun n : Notification => n.interval) (-1) ns h]
  have hf : (ns.map (fun n => n.interval)).filter (fun t => t ≠ -1) =
      ns.map (fun n => n.interval) := by
    rw [List.filter_eq_self]
    intro t ht
    obtain ⟨n, hn, rfl⟩ := List.mem_map.mp ht
    simpa using h n hn
  rw [hf]
  cases ns with
  | nil => simp [minimum_of]
  | cons x xs =>
    have hx : x.interval ≠ -1 := h x (List.mem_cons_self x xs)
    have hxs : ∀ y ∈ xs, y.interval ≠ -1 := fun y hy => h y (List.mem_cons_of_mem x hy)
    have hm : ∀ (l : List Notification) (a : ℚ), a ≠ -1 → (∀ y ∈ l, y.interval ≠ -1) →
        (match minimum_of (l.map (fun n => n.interval)) with
          | none => a
          | some m => min a m) ≠ -1 := by
      intro l
      induction l with
      | nil => intro a ha _; simpa [minimum_of] using ha
      | cons y ys ih =>
        intro a ha hl
        have hy : y.interval ≠ -1 := hl y (List.mem_cons_self y ys)
        have hys : ∀ w ∈ ys, w.interval ≠ -1 := fun w hw => hl w (List.mem_cons_of_mem y hw)
        have := ih y.interval hy hys
        simp only [List.map_cons, minimum_of]
        cases hmin : minimum_of (ys.map (fun n => n.interval)) with
        | none =>
          rcases min_choice a y.interval with e | e <;> simp only [e] <;> assumption
        | some m =>
          rw [hmin] at this
          simp only at this ⊢
          rcases min_choice a (min y.interval m) with e | e <;> simp only [e] <;> assumption
    have hne := hm xs x.interval hx hxs
    simp only [List.map_cons, minimum_of]
    cases hmin : minimum_of (xs.map (fun n => n.interval)) with
    | none =>
      simp only [Option.getD_some]
      rw [if_neg hx]
    | some m =>
      rw [hmin] at hne
      simp only at hne
      simp only [Option.getD_some]
      rw [if_neg hne]

/-! ## No more notifications -/

theorem notification_interval_nil (v : Bool) :
    GetCheckableNotificationNotificationInterval ⟨[], v⟩ = 1 := by
  norm_num [GetCheckableNotificationNotificationInterval, notification_interval_seconds]

theorem notification_interval_single_zero (n : Notification) (v : Bool)
    (h : n.interval = 0) :
    GetCheckableNotificationNotificationInterval ⟨[n], v⟩ = 0 := by
  norm_num [GetCheckableNotificationNotificationInterval, notification_interval_seconds, h]

/-- The no-more-notifications flag in terms of the value that
`GetCheckableNotificationNotificationInterval` returns: it is 1 exactly when
that value is 0 and the checkable is not volatile, and 0 otherwise; it is 0
for the empty notification set, and for a checkable whose only notification
has interval 0 it is 1 exactly when the checkable is not volatile. -/
theorem GetCheckableNoMoreNotifications_of_interval (checkable : Checkable) :
    (GetCheckableNoMoreNotifications checkable = 1 ↔
      (GetCheckableNotificationNotificationInterval checkable = 0 ∧
        checkable.volatile = false)) ∧
    (¬ (GetCheckableNotificationNotificationInterval checkable = 0 ∧
        checkable.volatile = false) →
      GetCheckableNoMoreNotifications checkable = 0) ∧
    (checkable.notifications = [] → GetCheckableNoMoreNotifications checkable = 0) ∧
    (∀ n, checkable.notifications = [n] → n.interval = 0 →
      (GetCheckableNoMoreNotifications checkable = 1 ↔ checkable.volatile = false)) := by
  obtain ⟨ns, v⟩ := checkable
  refine ⟨?_, ?_, ?_, ?_⟩
  · unfold GetCheckableNoMoreNotifications
    split_ifs with h
    · exact ⟨fun _ => h, fun _ => rfl⟩
    · exact ⟨fun e => absurd e (by decide), fun e => absurd e h⟩
  · intro h
    unfold GetCheckableNoMoreNotifications
    rw [if_neg h]
  · intro h
    simp only at h
    subst h
    unfold GetCheckableNoMoreNotifications
    rw [notification_interval_nil]
    simp
  · intro n h h0
    simp only at h
    subst h
    unfold GetCheckableNoMoreNotifications
    rw [notification_interval_single_zero n v h0]
    cases v <;> simp

/-- The flag of a non-volatile checkable whose only notification has interval
0 is 1. -/
theorem GetCheckableNoMoreNotifications_of_interval_example :
    (Checkable.mk [notification_at 0 0 0 0] false).notifications = [notification_at 0 0 0 0] ∧
    (notification_at 0 0 0 0).interval = 0 ∧
    GetCheckableNoMoreNotifications (Checkable.mk [notification_at 0 0 0 0] false) = 1 :=
  ⟨rfl, rfl,
   ((GetCheckableNoMoreNotifications_of_interval (Checkable.mk [notification_at 0 0 0 0] false)).2.2.2
      (notification_at 0 0 0 0) rfl rfl).mpr rfl⟩

/-- C9 fails on the code: for the non-volatile checkable whose notifications
have the interval 0 and an unset interval (-1), the minimum over the intervals
that are set is 0, so the flag is specified as 1; visited in this order the
function returns 0, since the -1 overwrites the running minimum and the 60
second default applies; visited in the other order it returns 1. -/
theorem no_more_notifications_reset_by_unset :
    spec_notification_interval [notification_at 0 0 0 0, notification_at (-1) 0 0 0] = 0 ∧
    spec_no_more_notifications
      ⟨[notification_at 0 0 0 0, notification_at (-1) 0 0 0], false⟩ = 1 ∧
    GetCheckableNotificationNotificationInterval
      ⟨[notification_at 0 0 0 0, notification_at (-1) 0 0 0], false⟩ = 1 ∧
    GetCheckableNoMoreNotifications
      ⟨[notification_at 0 0 0 0, notification_at (-1) 0 0 0], false⟩ = 0 ∧
    GetCheckableNoMoreNotifications
      ⟨[notification_at (-1) 0 0 0, notification_at 0 0 0 0], false⟩ = 1 := by
  refine ⟨?_, ?_, ?_, ?_, ?_⟩
  · norm_num [spec_notification_interval, minimum_of, notification_at]
  · norm_num [spec_no_more_notifications, spec_notification_interval, minimum_of,
      notification_at]
  · norm_num [GetCheckableNotificationNotificationInterval, notification_interval_seconds,
      notification_at]
  · norm_num [GetCheckableNoMoreNotifications, GetCheckableNotificationNotificationInterval,
      notification_interval_seconds, notification_at]
  · norm_num [GetCheckableNoMoreNotifications, GetCheckableNotificationNotificationInterval,
      notification_interval_seconds, notification_at]

/-! ## In notification period -/

theorem in_notification_period_loop_eq_one (IsInside : TimePeriod → ℚ → Bool) (now : ℚ)
    (ns : List Notification) :
    in_notification_period_loop IsInside now ns = 1 ↔
      ∃ n ∈ ns, n.period = none ∨ ∃ tp, n.period = some tp ∧ IsInside tp now = true := by
  induction ns with
  | nil => simp [in_notification_period_loop]
  | cons n rest ih =>
    unfold in_notification_period_loop
    cases hp : n.period with
    | none => simp [hp]
    | some tp =>
      by_cases hi : IsInside tp now = true
      · simp [hp, hi]
      · simp [hp, hi, ih]

theorem in_notification_period_loop_values (IsInside : TimePeriod → ℚ → Bool) (now : ℚ)
    (ns : List Notification) :
    in_notification_period_loop IsInside now ns = 1 ∨
      in_notification_period_loop IsInside now ns = 0 := by
  induction ns with
  | nil => simp [in_notification_period_loop]
  | cons n rest ih =>
    unfold in_notification_period_loop
    cases hp : n.period with
    | none => simp
    | some tp =>
      by_cases hi : IsInside tp now = true
      · simp [hi]
      · simpa [hi] using ih

/-- C10. For every notification set, every instant and every membership
predicate, the in-notification-period flag is 1 exactly when some notification
has no time period or has one that contains the instant, and 0 exactly when
every notification has a time period that rejects the instant; it is 0 for
the empty set. -/
theorem GetCheckableInNotificationPeriod_spec (IsInside : TimePeriod → ℚ → Bool) (now : ℚ)
    (checkable : Checkable) :
    (GetCheckableInNotificationPeriod IsInside now checkable = 1 ↔
      ∃ n ∈ checkable.notifications,
        n.period = none ∨ ∃ tp, n.period = some tp ∧ IsInside tp now = true) ∧
    (GetCheckableInNotificationPeriod IsInside now checkable = 0 ↔
      ∀ n ∈ checkable.notifications,
        ∃ tp, n.period = some tp ∧ IsInside tp now = false) ∧
    (checkable.notifications = [] →
      GetCheckableInNotificationPeriod IsInside now checkable = 0) := by
  unfold GetCheckableInNotificationPeriod
  have h1 := in_notification_period_loop_eq_one IsInside now checkable.notifications
  have h0 : in_notification_period_loop IsInside now checkable.notifications = 0 ↔
      ∀ n ∈ checkable.notifications,
        ∃ tp, n.period = some tp ∧ IsInside tp now = false := by
    constructor
    · intro hz n hn
      have hne : ¬ in_notification_period_loop IsInside now checkable.notifications = 1 := by
        rw [hz]; decide
      rw [h1] at hne
      cases hp : n.period with
      | none => exact absurd ⟨n, hn, Or.inl hp⟩ hne
      | some tp =>
        refine ⟨tp, rfl, ?_⟩
        cases hi : IsInside tp now with
        | false => rfl
        | true => exact absurd ⟨n, hn, Or.inr ⟨tp, hp, hi⟩⟩ hne
    · intro hall
      rcases in_notification_period_loop_values IsInside now checkable.notifications with h | h
      · obtain ⟨n, hn, hc⟩ := h1.mp h
        obtain ⟨tp, hp, hi⟩ := hall n hn
        rcases hc with hc | ⟨tp2, hp2, hi2⟩
        · rw [hc] at hp; cases hp
        · rw [hp2] at hp
          cases hp
          rw [hi] at hi2
          cases hi2
      · exact h
  refine ⟨h1, h0, ?_⟩
  intro he
  rw [h0, he]
  simp

/-- C10 at the empty notification set, where the flag is 0, and at a
notification whose period rejects the instant followed by a notification
without period, where the flag is 1. -/
theorem GetCheckableInNotificationPeriod_spec_witness :
    (Checkable.mk [] false).notifications = [] ∧
    GetCheckableInNotificationPeriod (fun _ _ => false) 0 (Checkable.mk [] false) = 0 ∧
    GetCheckableInNotificationPeriod (fun _ _ => false) 0
      (Checkable.mk [⟨0, 0, 1800, 0, 0, 0, some ⟨['2', '4', 'x', '7']⟩, [], []⟩,
        notification_at 1800 0 0 0] false) = 1 :=
  ⟨rfl,
   (GetCheckableInNotificationPeriod_spec (fun _ _ => false) 0 (Checkable.mk [] false)).2.2 rfl,
   (GetCheckableInNotificationPeriod_spec (fun _ _ => false) 0
      (Checkable.mk [⟨0, 0, 1800, 0, 0, 0, some ⟨['2', '4', 'x', '7']⟩, [], []⟩,
        notification_at 1800 0 0 0] false)).1.mpr
      ⟨notification_at 1800 0 0 0, by simp, Or.inl rfl⟩⟩

/-! ## Recipients -/

theorem mem_insert_all {α : Type} [DecidableEq α] (set range : List α) (x : α) :
    x ∈ insert_all set range ↔ x ∈ set ∨ x ∈ range := by
  unfold insert_all
  induction range generalizing set with
  | nil => simp
  | cons r rs ih =>
    simp only [List.foldl_cons, List.mem_cons]
    rw [ih]
    by_cases h : r ∈ set
    · simp only [h, if_true]
      constructor
      · rintro (h1 | h1)
        · exact Or.inl h1
        · exact Or.inr (Or.inr h1)
      · rintro (h1 | h1 | h1)
        · exact Or.inl h1
        · exact Or.inl (h1 ▸ h)
        · exact Or.inr h1
    · simp only [h, if_false, List.mem_append, List.mem_singleton]
      tauto

theorem mem_foldl_members (groups : List UserGroup) (acc : List User) (u : User) :
    u ∈ groups.foldl (fun allUsers ug => insert_all allUsers ug.members) acc ↔
      u ∈ acc ∨ ∃ g ∈ groups, u ∈ g.members := by
  induction groups generalizing acc with
  | nil => simp
  | cons g gs ih =>
    simp only [List.foldl_cons, List.mem_cons]
    rw [ih, mem_insert_all]
    constructor
    · rintro ((h | h) | ⟨g2, hg, hu⟩)
      · exact Or.inl h
      · exact Or.inr ⟨g, Or.inl rfl, h⟩
      · exact Or.inr ⟨g2, Or.inr hg, hu⟩
    · rintro (h | ⟨g2, hg | hg, hu⟩)
      · exact Or.inl (Or.inl h)
      · exact Or.inl (Or.inr (hg ▸ hu))
      · exact Or.inr ⟨g2, hg, hu⟩

theorem mem_foldl_groups (groups : List UserGroup) (acc : List UserGroup) (x : UserGroup) :
    x ∈ groups.foldl (fun usergroups ug => insert_all usergroups [ug]) acc ↔
      x ∈ acc ∨ x ∈ groups := by
  induction groups generalizing acc with
  | nil => simp
  | cons g gs ih =>
    simp only [List.foldl_cons, List.mem_cons]
    rw [ih, mem_insert_all]
    simp only [List.mem_singleton]
    tauto

/-- The users collected by the loop that starts from `acc`. -/
theorem mem_users_loop (ns : List Notification) (acc : List User) (u : User) :
    u ∈ ns.foldl
        (fun allUsers notification =>
          let users := notification.users
          let allUsers := insert_all allUsers users
          notification.user_groups.foldl
            (fun allUsers ug => insert_all allUsers ug.members) allUsers) acc ↔
      u ∈ acc ∨ ∃ n ∈ ns, u ∈ n.users ∨ ∃ g ∈ n.user_groups, u ∈ g.members := by
  induction ns generalizing acc with
  | nil => simp
  | cons n rest ih =>
    simp only [List.foldl_cons, List.mem_cons]
    rw [ih, mem_foldl_members, mem_insert_all]
    constructor
    · rintro (((h | h) | h) | ⟨m, hm, hu⟩)
      · exact Or.inl h
      · exact Or.inr ⟨n, Or.inl rfl, Or.inl h⟩
      · exact Or.inr ⟨n, Or.inl rfl, Or.inr h⟩
      · exact Or.inr ⟨m, Or.inr hm, hu⟩
    · rintro (h | ⟨m, hm | hm, hu⟩)
      · exact Or.inl (Or.inl (Or.inl h))
      · subst hm
        rcases hu with hu | hu
        · exact Or.inl (Or.inl (Or.inr hu))
        · exact Or.inl (Or.inr hu)
      · exact Or.inr ⟨m, hm, hu⟩

/-- The user groups collected by the loop that starts from `acc`. -/
theorem mem_groups_loop (ns : List Notification) (acc : List UserGroup) (x : UserGroup) :
    x ∈ ns.foldl
        (fun usergroups notification =>
          notification.user_groups.foldl
            (fun usergroups ug => insert_all usergroups [ug]) usergroups) acc ↔
      x ∈ acc ∨ ∃ n ∈ ns, x ∈ n.user_groups := by
  induction ns generalizing acc with
  | nil => simp
  | cons n rest ih =>
    simp only [List.foldl_cons, List.mem_cons]
    rw [ih, mem_foldl_groups]
    constructor
    · rintro ((h | h) | ⟨m, hm, hu⟩)
      · exact Or.inl h
      · exact Or.inr ⟨n, Or.inl rfl, h⟩
      · exact Or.inr ⟨m, Or.inr hm, hu⟩
    · rintro (h | ⟨m, hm | hm, hu⟩)
      · exact Or.inl (Or.inl h)
      · exact Or.inl (Or.inr (hm ▸ hu))
      · exact Or.inr ⟨m, hm, hu⟩

theorem mem_GetCheckableNotificationUsers (checkable : Checkable) (u : User) :
    u ∈ GetCheckableNotificationUsers checkable ↔
      ∃ n ∈ checkable.notifications,
        u ∈ n.users ∨ ∃ g ∈ n.user_groups, u ∈ g.members := by
  unfold GetCheckableNotificationUsers
  rw [mem_users_loop]
  simp

theorem mem_GetCheckableNotificationUserGroups (checkable : Checkable) (g : UserGroup) :
    g ∈ GetCheckableNotificationUserGroups checkable ↔
      ∃ n ∈ checkable.notifications, g ∈ n.user_groups := by
  unfold GetCheckableNotificationUserGroups
  rw [mem_groups_loop]
  simp

/-- C11. A user is in the set returned by `GetCheckableNotificationUsers`
exactly when it is assigned to some notification of the checkable or is a
member of a user group assigned to some notification; a group is in the set
returned by `GetCheckableNotificationUserGroups` exactly when it is assigned
to some notification. With notifications `{users: {A}}` and `{groups: {G}}`,
`G = {B, C}`, the users are `A`, `B`, `C` and the groups are `G`. -/
theorem notification_recipients_spec (checkable : Checkable) :
    (∀ u, u ∈ GetCheckableNotificationUsers checkable ↔
      ((∃ n ∈ checkable.notifications, u ∈ n.users) ∨
        (∃ n ∈ checkable.notifications, ∃ g ∈ n.user_groups, u ∈ g.members))) ∧
    (∀ g, g ∈ GetCheckableNotificationUserGroups checkable ↔
      ∃ n ∈ checkable.notifications, g ∈ n.user_groups) ∧
    (∀ (A B C : User) (name : Str) (v : Bool),
      (∀ u, u ∈ GetCheckableNotificationUsers
          ⟨[notification_to [A] [], notification_to [] [⟨name, [B, C]⟩]], v⟩ ↔
        (u = A ∨ u = B ∨ u = C)) ∧
      (∀ g, g ∈ GetCheckableNotificationUserGroups
          ⟨[notification_to [A] [], notification_to [] [⟨name, [B, C]⟩]], v⟩ ↔
        g = ⟨name, [B, C]⟩)) := by
  refine ⟨?_, ?_, ?_⟩
  · intro u
    rw [mem_GetCheckableNotificationUsers]
    constructor
    · rintro ⟨n, hn, h | h⟩
      · exact Or.inl ⟨n, hn, h⟩
      · exact Or.inr ⟨n, hn, h⟩
    · rintro (⟨n, hn, h⟩ | ⟨n, hn, h⟩)
      · exact ⟨n, hn, Or.inl h⟩
      · exact ⟨n, hn, Or.inr h⟩
  · exact mem_GetCheckableNotificationUserGroups checkable
  · intro A B C name v
    constructor
    · intro u
      rw [mem_GetCheckableNotificationUsers]
      simp [notification_to]
    · intro g
      rw [mem_GetCheckableNotificationUserGroups]
      simp [notification_to]

/-- C19. Every member of every user group returned by
`GetCheckableNotificationUserGroups` is returned by
`GetCheckableNotificationUsers`, and both sets only grow with the notification
set: when every notification of one checkable is a notification of another,
the users and the user groups of the first are among those of the second. -/
theorem notification_recipients_consistent (checkable : Checkable) :
    (∀ g ∈ GetCheckableNotificationUserGroups checkable,
      ∀ u ∈ g.members, u ∈ GetCheckableNotificationUsers checkable) ∧
    (∀ larger : Checkable,
      (∀ n ∈ checkable.notifications, n ∈ larger.notifications) →
      (∀ u ∈ GetCheckableNotificationUsers checkable,
        u ∈ GetCheckableNotificationUsers larger) ∧
      (∀ g ∈ GetCheckableNotificationUserGroups checkable,
        g ∈ GetCheckableNotificationUserGroups larger)) := by
  refine ⟨?_, ?_⟩
  · intro g hg u hu
    rw [mem_GetCheckableNotificationUserGroups] at hg
    obtain ⟨n, hn, hgn⟩ := hg
    rw [mem_GetCheckableNotificationUsers]
    exact ⟨n, hn, Or.inr ⟨g, hgn, hu⟩⟩
  · intro larger hsub
    refine ⟨?_, ?_⟩
    · intro u hu
      rw [mem_GetCheckableNotificationUsers] at hu ⊢
      obtain ⟨n, hn, h⟩ := hu
      exact ⟨n, hsub n hn, h⟩
    · intro g hg
      rw [mem_GetCheckableNotificationUserGroups] at hg ⊢
      obtain ⟨n, hn, h⟩ := hg
      exact ⟨n, hsub n hn, h⟩

/-- C19 at a checkable with one notification assigning the group `G = {B}`,
and the checkable obtained by adding a notification assigning the user `A`:
`B` is among the users of both, and `G` among the groups of both. -/
theorem notification_recipients_consistent_witness :
    (∀ n ∈ (Checkable.mk [notification_to [] [⟨['G'], [⟨['B']⟩]⟩]] false).notifications,
      n ∈ (Checkable.mk [notification_to [⟨['A']⟩] [],
        notification_to [] [⟨['G'], [⟨['B']⟩]⟩]] false).notifications) ∧
    (⟨['B']⟩ : User) ∈ GetCheckableNotificationUsers
      (Checkable.mk [notification_to [] [⟨['G'], [⟨['B']⟩]⟩]] false) ∧
    (⟨['B']⟩ : User) ∈ GetCheckableNotificationUsers
      (Checkable.mk [notification_to [⟨['A']⟩] [],
        notification_to [] [⟨['G'], [⟨['B']⟩]⟩]] false) ∧
    (⟨['G'], [⟨['B']⟩]⟩ : UserGroup) ∈ GetCheckableNotificationUserGroups
      (Checkable.mk [notification_to [⟨['A']⟩] [],
        notification_to [] [⟨['G'], [⟨['B']⟩]⟩]] false) :=
  ⟨by decide, by decide,
   ((notification_recipients_consistent
      (Checkable.mk [notification_to [] [⟨['G'], [⟨['B']⟩]⟩]] false)).2
      (Checkable.mk [notification_to [⟨['A']⟩] [],
        notification_to [] [⟨['G'], [⟨['B']⟩]⟩]] false) (by decide)).1 _ (by decide),
   ((notification_recipients_consistent
      (Checkable.mk [notification_to [] [⟨['G'], [⟨['B']⟩]⟩]] false)).2
      (Checkable.mk [notification_to [⟨['A']⟩] [],
        notification_to [] [⟨['G'], [⟨['B']⟩]⟩]] false) (by decide)).2 _ (by decide)⟩

/-! ## Command names and command lines -/

/-- C15. `GetCommandName` returns the empty string for a null command; for a
command it returns the name after `check_` for a check command, after
`notification_` for a notification command, after `event_` for an event
command, and the name unchanged for any other type; the check command `http`
yields `check_http`. -/
theorem GetCommandName_spec :
    GetCommandName none = [] ∧
    (∀ name cl vars, GetCommandName (some ⟨CommandType.CheckCommand, name, cl, vars⟩) =
        "check_".toList ++ name) ∧
    (∀ name cl vars, GetCommandName (some ⟨CommandType.NotificationCommand, name, cl, vars⟩) =
        "notification_".toList ++ name) ∧
    (∀ name cl vars, GetCommandName (some ⟨CommandType.EventCommand, name, cl, vars⟩) =
        "event_".toList ++ name) ∧
    (∀ name cl vars, GetCommandName (some ⟨CommandType.Other, name, cl, vars⟩) = name) ∧
    (∀ cl vars, GetCommandName (some ⟨CommandType.CheckCommand, "http".toList, cl, vars⟩) =
        "check_http".toList) := by
  refine ⟨rfl, ?_, ?_, ?_, ?_, ?_⟩ <;> intros <;>
    simp [GetCommandName, GetCommandNamePrefix]

theorem foldl_quoted (args : List Str) (acc : Str) :
    args.foldl (fun result arg => result ++ ([' ', DQUOTE] ++ EscapeString arg ++ [DQUOTE])) acc =
      acc ++ (args.map (fun arg => [' ', DQUOTE] ++ EscapeString arg ++ [DQUOTE])).flatten := by
  induction args generalizing acc with
  | nil => simp
  | cons a rest ih =>
    simp only [List.foldl_cons, List.map_cons, List.flatten_cons]
    rw [ih]
    simp only [List.append_assoc]

theorem join_quoted_eq (a : Str) (rest : List Str) :
    ((a :: rest).map (fun arg => [' ', DQUOTE] ++ EscapeString arg ++ [DQUOTE])).flatten =
      ' ' :: spec_quoted_args (a :: rest) := by
  induction rest generalizing a with
  | nil => simp [spec_quoted_args]
  | cons b rest ih =>
    have := ih b
    rw [List.map_cons, List.flatten_cons, this]
    simp [spec_quoted_args]

theorem LF_not_mem_join_quoted (args : List Str) :
    LF ∉ (args.map (fun arg => [' ', DQUOTE] ++ EscapeString arg ++ [DQUOTE])).flatten := by
  intro h
  rw [List.mem_flatten] at h
  obtain ⟨l, hl, hm⟩ := h
  obtain ⟨a, _, rfl⟩ := List.mem_map.mp hl
  simp only [List.cons_append, List.nil_append, List.mem_cons, List.mem_append,
    List.mem_singleton] at hm
  rcases hm with hm | hm | hm | hm
  · exact absurd hm (by decide)
  · exact absurd hm (by decide)
  · exact EscapeString_no_LF a hm
  · rcases hm with hm | hm
    · exact absurd hm (by decide)
    · cases hm

/-- C16, as stated, fails: for the argument list with the one argument `a` the
arguments wrapped in quotes and separated by spaces are `"a"`, while the
rendering begins with a space. -/
theorem GetCommandLine_leading_space_counterexample :
    spec_quoted_args [['a']] = [DQUOTE, 'a', DQUOTE] ∧
    GetCommandLine ⟨CommandType.CheckCommand, ['c'], Value.array [['a']], none⟩ =
      [' ', DQUOTE, 'a', DQUOTE] ∧
    GetCommandLine ⟨CommandType.CheckCommand, ['c'], Value.array [['a']], none⟩ ≠
      spec_quoted_args [['a']] := by
  decide

/-- C16, amended. For an argument list the rendering is, for each argument in
order, a space followed by the argument wrapped in double quotes with
line-breaks escaped: for a non-empty list that is a space followed by the
quoted arguments separated by single spaces, for the empty list the empty
string. For a non-empty scalar it is the escaped string form, for an absent
template the text `<internal>`. In every case it holds no line-break. -/
theorem GetCommandLine_spec (command : Command) :
    (∀ args, command.command_line = Value.array args →
      GetCommandLine command =
        (args.map (fun arg => [' ', DQUOTE] ++ EscapeString arg ++ [DQUOTE])).flatten ∧
      (args ≠ [] → GetCommandLine command = ' ' :: spec_quoted_args args) ∧
      (args = [] → GetCommandLine command = [])) ∧
    (∀ text, text ≠ [] → command.command_line = Value.scalar text →
      GetCommandLine command = EscapeString text) ∧
    (command.command_line = Value.empty → GetCommandLine command = "<internal>".toList) ∧
    LF ∉ GetCommandLine command := by
  obtain ⟨ty, name, cl, vars⟩ := command
  have harr : ∀ args, GetCommandLine ⟨ty, name, Value.array args, vars⟩ =
      (args.map (fun arg => [' ', DQUOTE] ++ EscapeString arg ++ [DQUOTE])).flatten := by
    intro args
    simp only [GetCommandLine]
    rw [foldl_quoted]
    simp
  refine ⟨?_, ?_, ?_, ?_⟩
  · intro args h
    simp only at h
    subst h
    refine ⟨harr args, ?_, ?_⟩
    · intro hne
      rw [harr]
      cases args with
      | nil => exact absurd rfl hne
      | cons a rest => exact join_quoted_eq a rest
    · intro he
      rw [harr, he]
      rfl
  · intro text hne h
    simp only at h
    subst h
    cases text with
    | nil => exact absurd rfl hne
    | cons c cs => simp [GetCommandLine, Value.IsEmpty, Value.ToString]
  · intro h
    simp only at h
    subst h
    rfl
  · cases cl with
    | empty =>
      have : GetCommandLine ⟨ty, name, Value.empty, vars⟩ = "<internal>".toList := rfl
      rw [this]
      decide
    | scalar text =>
      cases text with
      | nil =>
        have : GetCommandLine ⟨ty, name, Value.scalar [], vars⟩ = "<internal>".toList := rfl
        rw [this]
        decide
      | cons c cs =>
        have : GetCommandLine ⟨ty, name, Value.scalar (c :: cs), vars⟩ =
            EscapeString (c :: cs) := by
          simp [GetCommandLine, Value.IsEmpty, Value.ToString]
        rw [this]
        exact EscapeString_no_LF _
    | array args =>
      rw [harr]
      exact LF_not_mem_join_quoted args

/-- C16, amended, at the argument list `a`, `b`, a line-break, `c`: a space,
`"a"`, a space and `"b\nc"` with the line-break escaped. -/
theorem GetCommandLine_spec_witness :
    (Command.mk CommandType.CheckCommand ['c']
        (Value.array [['a'], ['b', LF, 'c']]) none).command_line =
      Value.array [['a'], ['b', LF, 'c']] ∧
    [['a'], ['b', LF, 'c']] ≠ ([] : List Str) ∧
    GetCommandLine (Command.mk CommandType.CheckCommand ['c']
        (Value.array [['a'], ['b', LF, 'c']]) none) =
      [' ', DQUOTE, 'a', DQUOTE, ' ', DQUOTE, 'b', BSL, 'n', 'c', DQUOTE] :=
  ⟨rfl, by decide,
   (((GetCommandLine_spec (Command.mk CommandType.CheckCommand ['c']
        (Value.array [['a'], ['b', LF, 'c']]) none)).1 _ rfl).2.1 (by decide)).trans
      (by decide)⟩

/-! ## Host states -/

/-- C20. For every host, and every naming of the host states that names no
state `UNREACHABLE`: `GetHostCurrentState` returns 2 exactly when
`GetHostStateString` returns `UNREACHABLE`, exactly when the host is not up
and not reachable; otherwise they return the state of the host and its name;
a host that is up is never reported as unreachable. -/
theorem host_state_projections_agree (StateToString : HostState → Str)
    (hname : ∀ s, StateToString s ≠ "UNREACHABLE".toList) (host : Host) :
    (GetHostCurrentState host = 2 ↔
      GetHostStateString StateToString host = "UNREACHABLE".toList) ∧
    (GetHostCurrentState host = 2 ↔
      (host.state ≠ HostState.HostUp ∧ host.reachable = false)) ∧
    (¬ (host.state ≠ HostState.HostUp ∧ host.reachable = false) →
      GetHostCurrentState host = host.state.toInt ∧
      GetHostStateString StateToString host = StateToString host.state) ∧
    (host.state = HostState.HostUp →
      GetHostCurrentState host = 0 ∧
      GetHostStateString StateToString host ≠ "UNREACHABLE".toList) := by
  have hint : host.state.toInt ≠ 2 := by
    cases host.state <;> simp [HostState.toInt]
  have h2 : GetHostCurrentState host = 2 ↔
      (host.state ≠ HostState.HostUp ∧ host.reachable = false) := by
    unfold GetHostCurrentState
    split_ifs with h
    · exact ⟨fun _ => h, fun _ => rfl⟩
    · exact ⟨fun e => absurd e hint, fun e => absurd e h⟩
  have hs : GetHostStateString StateToString host = "UNREACHABLE".toList ↔
      (host.state ≠ HostState.HostUp ∧ host.reachable = false) := by
    unfold GetHostStateString
    split_ifs with h
    · exact ⟨fun _ => h, fun _ => rfl⟩
    · exact ⟨fun e => absurd e (hname _), fun e => absurd e h⟩
  refine ⟨h2.trans hs.symm, h2, ?_, ?_⟩
  · intro h
    unfold GetHostCurrentState GetHostStateString
    rw [if_neg h, if_neg h]
    exact ⟨rfl, rfl⟩
  · intro hup
    have hn : ¬ (host.state ≠ HostState.HostUp ∧ host.reachable = false) :=
      fun e => e.1 hup
    refine ⟨?_, fun e => hn (hs.mp e)⟩
    unfold GetHostCurrentState
    rw [if_neg hn, hup]
    rfl

/-- C20 at a host that is down and not reachable, with the state names `UP`
and `DOWN`: the state is 2 and the state string is `UNREACHABLE`. -/
theorem host_state_projections_agree_witness :
    (∀ s, sample_StateToString s ≠ "UNREACHABLE".toList) ∧
    GetHostCurrentState ⟨⟨[], false⟩, none, none, HostState.HostDown, false⟩ = 2 ∧
    GetHostStateString sample_StateToString
      ⟨⟨[], false⟩, none, none, HostState.HostDown, false⟩ = "UNREACHABLE".toList :=
  ⟨by intro s; cases s <;> decide,
   by decide,
   ((host_state_projections_agree sample_StateToString
      (by intro s; cases s <;> decide)
      ⟨⟨[], false⟩, none, none, HostState.HostDown, false⟩).1).mp (by decide)⟩

/-! ## Unescaping and then escaping -/

theorem escape_unescape_by_length (n : Nat) :
    ∀ s : Str, s.length ≤ n → LF ∉ s → EscapeString (UnEscapeString s) = s := by
  induction n with
  | zero =>
    intro s hl _
    have : s = [] := List.length_eq_zero.mp (Nat.le_zero.mp hl)
    subst this
    rfl
  | succ n ih =>
    intro s hl hs
    cases s with
    | nil => rfl
    | cons c cs =>
      have hc : c ≠ LF := fun e => hs (e ▸ List.mem_cons_self c cs)
      have hcs : LF ∉ cs := fun e => hs (List.mem_cons_of_mem c e)
      have hlen : cs.length ≤ n := by simpa using hl
      by_cases hp : [BSL, 'n'] <+: c :: cs
      · obtain ⟨t, ht⟩ := hp
        simp only [List.cons_append, List.nil_append, List.cons.injEq] at ht
        obtain ⟨hb, hcst⟩ := ht
        subst hb
        subst hcst
        have ht1 : LF ∉ t := fun e => hcs (List.mem_cons_of_mem _ e)
        have ht2 : t.length ≤ n := by
          simp only [List.length_cons] at hlen
          omega
        rw [UnEscapeString_match, EscapeString_cons_LF, ih t ht2 ht1]
      · rw [UnEscapeString_skip c cs hp, EscapeString_cons_ne c _ hc, ih cs hlen hcs]

/-- C18. For every text without line-break, unescaping and then escaping
gives the text back; hence unescaping is injective on the texts without
line-break, and the texts that escaping produces are exactly the texts without
line-break. -/
theorem EscapeString_of_UnEscapeString :
    (∀ s : Str, LF ∉ s → EscapeString (UnEscapeString s) = s) ∧
    (∀ s t : Str, LF ∉ s → LF ∉ t → UnEscapeString s = UnEscapeString t → s = t) ∧
    (∀ t : Str, (∃ s, EscapeString s = t) ↔ LF ∉ t) := by
  have h : ∀ s : Str, LF ∉ s → EscapeString (UnEscapeString s) = s :=
    fun s hs => escape_unescape_by_length s.length s (Nat.le_refl _) hs
  refine ⟨h, ?_, ?_⟩
  · intro s t hs ht e
    rw [← h s hs, ← h t ht, e]
  · intro t
    constructor
    · rintro ⟨s, rfl⟩
      exact EscapeString_no_LF s
    · intro ht
      exact ⟨UnEscapeString t, h t ht⟩

/-- C18 at the text `a`, backslash, `n`, `b`, which has no line-break. -/
theorem EscapeString_of_UnEscapeString_witness :
    LF ∉ ['a', BSL, 'n', 'b'] ∧
    UnEscapeString ['a', BSL, 'n', 'b'] = ['a', LF, 'b'] ∧
    EscapeString (UnEscapeString ['a', BSL, 'n', 'b']) = ['a', BSL, 'n', 'b'] :=
  ⟨by decide, by decide, EscapeString_of_UnEscapeString.1 ['a', BSL, 'n', 'b'] (by decide)⟩

/-! ## Notify-on flags -/

theorem and_ne_zero_iff (x m : Nat) :
    x &&& m ≠ 0 ↔ ∃ i, x.testBit i = true ∧ m.testBit i = true := by
  constructor
  · intro h
    obtain ⟨i, hi⟩ := Nat.ne_zero_implies_bit_true h
    rw [Nat.testBit_and, Bool.and_eq_true] at hi
    exact ⟨i, hi⟩
  · rintro ⟨i, hx, hm⟩ h0
    have : (x &&& m).testBit i = true := by
      rw [Nat.testBit_and, hx, hm]
      rfl
    rw [h0] at this
    simp at this

theorem or_of_filters_and_ne_zero (fs : List Nat) (m : Nat) :
    or_of_filters fs &&& m ≠ 0 ↔ ∃ f ∈ fs, f &&& m ≠ 0 := by
  rw [and_ne_zero_iff]
  constructor
  · rintro ⟨i, hx, hm⟩
    obtain ⟨f, hf, hfi⟩ := (testBit_or_of_filters fs i).mp hx
    exact ⟨f, hf, (and_ne_zero_iff f m).mpr ⟨i, hfi, hm⟩⟩
  · rintro ⟨f, hf, hne⟩
    obtain ⟨i, hfi, hm⟩ := (and_ne_zero_iff f m).mp hne
    exact ⟨i, (testBit_or_of_filters fs i).mpr ⟨f, hf, hfi⟩, hm⟩

/-- Against a mask of 32 bits only the low 32 bits count. -/
theorem and_mod_of_lt (x m : Nat) (hm : m < 2 ^ 32) : x &&& m = (x % 2 ^ 32) &&& m := by
  apply Nat.eq_of_testBit_eq
  intro i
  simp only [Nat.testBit_mod_two_pow, Nat.testBit_and]
  by_cases hi : i < 32
  · simp [hi]
  · have : m.testBit i = false := by
      apply Nat.testBit_lt_two_pow
      calc m < 2 ^ 32 := hm
        _ ≤ 2 ^ i := Nat.pow_le_pow_right (by decide) (by omega)
    simp [this]

theorem sign_extend_small (a : Nat) (h : a < 2 ^ 31) :
    int_to_ulong (ulong_to_int a) = a := by
  unfold int_to_ulong ulong_to_int
  split_ifs <;> omega

theorem testBit_31 (a : Nat) (h1 : 2 ^ 31 ≤ a) (h2 : a < 2 ^ 32) : a.testBit 31 = true := by
  rw [Nat.testBit_to_div_mod]
  simp only [decide_eq_true_eq]
  omega

/-- Two `int`s converted to `unsigned long` share a bit exactly when their
patterns do. -/
theorem sign_extend_and_ne_zero (a b : Nat) (ha : a < 2 ^ 32) (hb : b < 2 ^ 32) :
    int_to_ulong (ulong_to_int a) &&& int_to_ulong (ulong_to_int b) ≠ 0 ↔ a &&& b ≠ 0 := by
  have ma : int_to_ulong (ulong_to_int a) % 2 ^ 32 = a := by
    rw [int_to_ulong_ulong_to_int_mod]
    exact Nat.mod_eq_of_lt ha
  have mb : int_to_ulong (ulong_to_int b) % 2 ^ 32 = b := by
    rw [int_to_ulong_ulong_to_int_mod]
    exact Nat.mod_eq_of_lt hb
  by_cases sa : a < 2 ^ 31
  · rw [sign_extend_small a sa, Nat.land_comm, and_mod_of_lt _ a ha, mb, Nat.land_comm]
  · by_cases sb : b < 2 ^ 31
    · rw [sign_extend_small b sb, and_mod_of_lt _ b hb, ma]
    · have ta : a.testBit 31 = true := testBit_31 a (by omega) ha
      have tb : b.testBit 31 = true := testBit_31 b (by omega) hb
      have tea : (int_to_ulong (ulong_to_int a)).testBit 31 = true := by
        have := Nat.testBit_mod_two_pow (int_to_ulong (ulong_to_int a)) 32 31
        rw [ma, ta] at this
        simpa using this.symm
      have teb : (int_to_ulong (ulong_to_int b)).testBit 31 = true := by
        have := Nat.testBit_mod_two_pow (int_to_ulong (ulong_to_int b)) 32 31
        rw [mb, tb] at this
        simpa using this.symm
      constructor
      · intro _
        exact (and_ne_zero_iff a b).mpr ⟨31, ta, tb⟩
      · intro _
        exact (and_ne_zero_iff _ _).mpr ⟨31, tea, teb⟩

theorem state_bits (checkable : Checkable) (m : CInt) :
    (int_bits (GetCheckableNotificationStateFilter checkable) &&& m.val ≠ 0 ↔
      some_state_filter_has checkable.notifications m) ∧
    (int_to_ulong (GetCheckableNotificationStateFilter checkable) &&& m.toULong ≠ 0 ↔
      some_state_filter_has checkable.notifications m) := by
  have hm : m.val < 2 ^ 32 := by
    have := m.isLt
    omega
  have key : or_of_filters (checkable.notifications.map (fun n => n.state_filter.val)) &&&
      m.val ≠ 0 ↔ some_state_filter_has checkable.notifications m := by
    rw [or_of_filters_and_ne_zero]
    unfold some_state_filter_has
    simp
  refine ⟨?_, ?_⟩
  · rw [state_filter_bits]
    exact key
  · rw [state_filter_eq_or]
    unfold CInt.toULong CInt.toInt
    rw [sign_extend_and_ne_zero _ _ (patterns_lt (fun n : Notification => n.state_filter) _) hm]
    exact key

theorem type_bits (checkable : Checkable) (m : CInt) :
    (int_bits (GetCheckableNotificationTypeFilter checkable) &&& m.val ≠ 0 ↔
      some_type_filter_has checkable.notifications m) ∧
    (int_to_ulong (GetCheckableNotificationTypeFilter checkable) &&& m.toULong ≠ 0 ↔
      some_type_filter_has checkable.notifications m) := by
  have hm : m.val < 2 ^ 32 := by
    have := m.isLt
    omega
  have key : or_of_filters (checkable.notifications.map (fun n => n.type_filter.val)) &&&
      m.val ≠ 0 ↔ some_type_filter_has checkable.notifications m := by
    rw [or_of_filters_and_ne_zero]
    unfold some_type_filter_has
    simp
  refine ⟨?_, ?_⟩
  · rw [type_filter_bits]
    exact key
  · rw [type_filter_eq_or]
    unfold CInt.toULong CInt.toInt
    rw [sign_extend_and_ne_zero _ _ (patterns_lt (fun n : Notification => n.type_filter) _) hm]
    exact key

theorem flag_is_ite (c p : Prop) [Decidable c] (h : c ↔ p) :
    flag_is (if c then 1 else 0) p := by
  unfold flag_is
  by_cases hc : c
  · rw [if_pos hc]
    exact ⟨⟨fun _ => h.mp hc, fun _ => rfl⟩,
      ⟨fun e => absurd e (by decide), fun e => absurd (h.mp hc) e⟩⟩
  · rw [if_neg hc]
    exact ⟨⟨fun e => absurd e (by decide), fun e => absurd (h.mpr e) hc⟩,
      ⟨fun _ => fun e => hc (h.mpr e), fun _ => rfl⟩⟩

/-- C17. For every notification set, and whatever the values of the mask
constants, each notify-on flag is 1 exactly when the filter of some
notification contains a bit of one of the masks of the flag, and 0 otherwise:
host notify-on-down for the Critical or Warning mask in a state filter, host
notify-on-unreachable for Unknown, notify-on-warning, critical and unknown for
the respective mask in a state filter, notify-on-recovery for Recovery in a
type filter, notify-on-flapping for FlappingStart or FlappingEnd,
notify-on-downtime for DowntimeStart, DowntimeEnd or DowntimeRemoved. All
flags are 0 for the empty set. -/
theorem notify_on_flags_spec (K : FilterConstants) (host : Host) :
    flag_is (GetHostNotifyOnDown K host)
      (some_state_filter_has host.notifications K.ServiceCritical ∨
        some_state_filter_has host.notifications K.ServiceWarning) ∧
    flag_is (GetHostNotifyOnUnreachable K host)
      (some_state_filter_has host.notifications K.ServiceUnknown) ∧
    flag_is (GetCheckableNotifyOnWarning K host.toCheckable)
      (some_state_filter_has host.notifications K.ServiceWarning) ∧
    flag_is (GetCheckableNotifyOnCritical K host.toCheckable)
      (some_state_filter_has host.notifications K.ServiceCritical) ∧
    flag_is (GetCheckableNotifyOnUnknown K host.toCheckable)
      (some_state_filter_has host.notifications K.ServiceUnknown) ∧
    flag_is (GetCheckableNotifyOnRecovery K host.toCheckable)
      (some_type_filter_has host.notifications K.NotificationRecovery) ∧
    flag_is (GetCheckableNotifyOnFlapping K host.toCheckable)
      (some_type_filter_has host.notifications K.NotificationFlappingStart ∨
        some_type_filter_has host.notifications K.NotificationFlappingEnd) ∧
    flag_is (GetCheckableNotifyOnDowntime K host.toCheckable)
      (some_type_filter_has host.notifications K.NotificationDowntimeStart ∨
        some_type_filter_has host.notifications K.NotificationDowntimeEnd ∨
        some_type_filter_has host.notifications K.NotificationDowntimeRemoved) ∧
    (host.notifications = [] →
      GetHostNotifyOnDown K host = 0 ∧ GetHostNotifyOnUnreachable K host = 0 ∧
      GetCheckableNotifyOnWarning K host.toCheckable = 0 ∧
      GetCheckableNotifyOnCritical K host.toCheckable = 0 ∧
      GetCheckableNotifyOnUnknown K host.toCheckable = 0 ∧
      GetCheckableNotifyOnRecovery K host.toCheckable = 0 ∧
      GetCheckableNotifyOnFlapping K host.toCheckable = 0 ∧
      GetCheckableNotifyOnDowntime K host.toCheckable = 0) := by
  have sb := state_bits host.toCheckable
  have tb := type_bits host.toCheckable
  have f1 : flag_is (GetHostNotifyOnDown K host)
      (some_state_filter_has host.notifications K.ServiceCritical ∨
        some_state_filter_has host.notifications K.ServiceWarning) :=
    flag_is_ite _ _ (or_congr (sb _).2 (sb _).2)
  have f2 : flag_is (GetHostNotifyOnUnreachable K host)
      (some_state_filter_has host.notifications K.ServiceUnknown) :=
    flag_is_ite _ _ (sb _).2
  have f3 : flag_is (GetCheckableNotifyOnWarning K host.toCheckable)
      (some_state_filter_has host.notifications K.ServiceWarning) :=
    flag_is_ite _ _ (sb _).1
  have f4 : flag_is (GetCheckableNotifyOnCritical K host.toCheckable)
      (some_state_filter_has host.notifications K.ServiceCritical) :=
    flag_is_ite _ _ (sb _).1
  have f5 : flag_is (GetCheckableNotifyOnUnknown K host.toCheckable)
      (some_state_filter_has host.notifications K.ServiceUnknown) :=
    flag_is_ite _ _ (sb _).1
  have f6 : flag_is (GetCheckableNotifyOnRecovery K host.toCheckable)
      (some_type_filter_has host.notifications K.NotificationRecovery) :=
    flag_is_ite _ _ (tb _).1
  have f7 : flag_is (GetCheckableNotifyOnFlapping K host.toCheckable)
      (some_type_filter_has host.notifications K.NotificationFlappingStart ∨
        some_type_filter_has host.notifications K.NotificationFlappingEnd) :=
    flag_is_ite _ _ (or_congr (tb _).2 (tb _).2)
  have f8 : flag_is (GetCheckableNotifyOnDowntime K host.toCheckable)
      (some_type_filter_has host.notifications K.NotificationDowntimeStart ∨
        some_type_filter_has host.notifications K.NotificationDowntimeEnd ∨
        some_type_filter_has host.notifications K.NotificationDowntimeRemoved) :=
    flag_is_ite _ _ (or_congr (tb _).2 (or_congr (tb _).2 (tb _).2))
  refine ⟨f1, f2, f3, f4, f5, f6, f7, f8, ?_⟩
  intro he
  have ns : ∀ m, ¬ some_state_filter_has host.notifications m := by
    intro m ⟨n, hn, _⟩
    rw [he] at hn
    cases hn
  have nt : ∀ m, ¬ some_type_filter_has host.notifications m := by
    intro m ⟨n, hn, _⟩
    rw [he] at hn
    cases hn
  refine ⟨f1.2.mpr ?_, f2.2.mpr (ns _), f3.2.mpr (ns _), f4.2.mpr (ns _), f5.2.mpr (ns _),
    f6.2.mpr (nt _), f7.2.mpr ?_, f8.2.mpr ?_⟩
  · rintro (e | e) <;> exact ns _ e
  · rintro (e | e) <;> exact nt _ e
  · rintro (e | e | e) <;> exact nt _ e

/-- C17 at a host with one notification whose state filter is -2147483646
(the Critical bit and bit 31) and whose type filter is 128, with the sample
constants: notify-on-down is 1 (Critical), notify-on-flapping is 1
(FlappingStart) and notify-on-recovery is 0. -/
theorem notify_on_flags_spec_witness :
    (2147483650 : CInt).toInt = -2147483646 ∧
    GetHostNotifyOnDown sample_constants
      (Host.mk ⟨[notification_filtering 2147483650 128], false⟩ none none
        HostState.HostUp true) = 1 ∧
    GetCheckableNotifyOnFlapping sample_constants
      (Host.mk ⟨[notification_filtering 2147483650 128], false⟩ none none
        HostState.HostUp true).toCheckable = 1 ∧
    GetCheckableNotifyOnRecovery sample_constants
      (Host.mk ⟨[notification_filtering 2147483650 128], false⟩ none none
        HostState.HostUp true).toCheckable = 0 :=
  ⟨by decide,
   (notify_on_flags_spec sample_constants
      (Host.mk ⟨[notification_filtering 2147483650 128], false⟩ none none
        HostState.HostUp true)).1.1.mpr
      (Or.inl ⟨notification_filtering 2147483650 128, by simp, by decide⟩),
   by decide, by decide⟩

/-! ## Used variables -/

theorem Get_eq_none_iff (d : Dictionary) (k : Str) :
    Dictionary.Get d k = none ↔ ¬ has_key d k := by
  induction d with
  | nil => simp [Dictionary.Get, has_key]
  | cons p rest ih =>
    obtain ⟨k0, v0⟩ := p
    unfold Dictionary.Get
    by_cases hk : k0 = k
    · subst hk
      simp [has_key]
    · rw [if_neg hk, ih]
      unfold has_key
      constructor
      · rintro h ⟨v, hv⟩
        rcases List.mem_cons.mp hv with e | e
        · exact hk (Prod.mk.inj e).1.symm
        · exact h ⟨v, e⟩
      · rintro h ⟨v, hv⟩
        exact h ⟨v, List.mem_cons_of_mem _ hv⟩

theorem has_key_Set (d : Dictionary) (key value k : Str) :
    has_key (Dictionary.Set d key value) k ↔ has_key d k ∨ k = key := by
  unfold Dictionary.Set
  cases hg : Dictionary.Get d key with
  | some w =>
    have hk : has_key d key := by
      by_contra hn
      rw [(Get_eq_none_iff d key).mpr hn] at hg
      cases hg
    simp only
    constructor
    · exact Or.inl
    · rintro (h | h)
      · exact h
      · exact h ▸ hk
  | none =>
    simp only [has_key, List.mem_append, List.mem_singleton, Prod.mk.injEq]
    constructor
    · rintro ⟨v, hv | ⟨hk, _⟩⟩
      · exact Or.inl ⟨v, hv⟩
      · exact Or.inr hk
    · rintro (⟨v, hv⟩ | hk)
      · exact ⟨v, Or.inl hv⟩
      · exact ⟨value, Or.inr ⟨hk, rfl⟩⟩

/-- The keys after a loop whose step sets the key of the visited pair exactly
when `cond` holds of that key. -/
theorem has_key_foldl (step : Dictionary → Str × Str → Dictionary) (cond : Str → Prop)
    (hstep : ∀ args kv k, has_key (step args kv) k ↔ has_key args k ∨ (k = kv.1 ∧ cond kv.1))
    (l args : Dictionary) (k : Str) :
    has_key (l.foldl step args) k ↔ has_key args k ∨ (has_key l k ∧ cond k) := by
  induction l generalizing args with
  | nil => simp [has_key]
  | cons p rest ih =>
    rw [List.foldl_cons, ih, hstep]
    obtain ⟨k0, v0⟩ := p
    simp only [has_key, List.mem_cons, Prod.mk.injEq]
    constructor
    · rintro ((h | ⟨hk, hc⟩) | ⟨⟨v, hv⟩, hc⟩)
      · exact Or.inl h
      · exact Or.inr ⟨⟨v0, Or.inl ⟨hk, rfl⟩⟩, hk ▸ hc⟩
      · exact Or.inr ⟨⟨v, Or.inr hv⟩, hc⟩
    · rintro (h | ⟨⟨v, ⟨hk, _⟩ | hv⟩, hc⟩)
      · exact Or.inl (Or.inl h)
      · exact Or.inl (Or.inr ⟨hk, hk ▸ hc⟩)
      · exact Or.inr ⟨⟨v, hv⟩, hc⟩

theorem has_key_command_vars_loop (T : Str) (vars args : Dictionary) (k : Str) :
    has_key (command_vars_loop T vars args) k ↔
      has_key args k ∨ (has_key vars k ∧ Contains T (short_form k) = true) := by
  unfold command_vars_loop
  apply has_key_foldl _ (fun key => Contains T (short_form key) = true)
  intro args kv k
  simp only [short_form]
  generalize Contains T (['$'] ++ kv.1 ++ ['$']) = c
  cases c <;> simp [has_key_Set]

theorem has_key_scoped_step (T scope : Str) (args : Dictionary) (kv : Str × Str) (k : Str) :
    has_key
        (if Contains T (scope ++ kv.1 ++ ['$']) = true then
          Dictionary.Set (if Contains T (['$'] ++ kv.1 ++ ['$']) = true
            then Dictionary.Set args kv.1 kv.2 else args) kv.1 kv.2
        else (if Contains T (['$'] ++ kv.1 ++ ['$']) = true
            then Dictionary.Set args kv.1 kv.2 else args)) k ↔
      has_key args k ∨ (k = kv.1 ∧
        (Contains T (short_form kv.1) = true ∨ Contains T (scope ++ kv.1 ++ ['$']) = true)) := by
  simp only [short_form]
  generalize Contains T (['$'] ++ kv.1 ++ ['$']) = c1
  generalize Contains T (scope ++ kv.1 ++ ['$']) = c2
  cases c1 <;> cases c2 <;> simp [has_key_Set]

theorem has_key_host_vars_loop (T : Str) (vars args : Dictionary) (k : Str) :
    has_key (host_vars_loop T vars args) k ↔
      has_key args k ∨ (has_key vars k ∧
        (Contains T (short_form k) = true ∨
          Contains T ("$host.vars.".toList ++ k ++ ['$']) = true)) := by
  unfold host_vars_loop
  apply has_key_foldl _ (fun key => Contains T (short_form key) = true ∨
    Contains T ("$host.vars.".toList ++ key ++ ['$']) = true)
  intro args kv k
  exact has_key_scoped_step T "$host.vars.".toList args kv k

theorem has_key_service_vars_loop (T : Str) (vars args : Dictionary) (k : Str) :
    has_key (service_vars_loop T vars args) k ↔
      has_key args k ∨ (has_key vars k ∧
        (Contains T (short_form k) = true ∨
          Contains T ("$service.vars.".toList ++ k ++ ['$']) = true)) := by
  unfold service_vars_loop
  apply has_key_foldl _ (fun key => Contains T (short_form key) = true ∨
    Contains T ("$service.vars.".toList ++ key ++ ['$']) = true)
  intro args kv k
  exact has_key_scoped_step T "$service.vars.".toList args kv k

theorem binds_some (d : Dictionary) (k : Str) : binds (some d) k ↔ has_key d k := by
  simp [binds, has_key]

theorem binds_none (k : Str) : ¬ binds none k := by
  simp [binds]

/-- The keys of the dictionary `args` built for a command, a host and a
service. -/
theorem has_key_command_args (command : Command) (host : Host) (service : Option Service)
    (k : Str) :
    has_key (command_args command host service) k ↔
      (binds command.vars k ∧ Contains (GetCommandLine command) (short_form k) = true) ∨
      (binds host.vars k ∧
        (Contains (GetCommandLine command) (short_form k) = true ∨
          Contains (GetCommandLine command) ("$host.vars.".toList ++ k ++ ['$']) = true)) ∨
      (binds (service.bind (fun s => s.vars)) k ∧
        (Contains (GetCommandLine command) (short_form k) = true ∨
          Contains (GetCommandLine command) ("$service.vars.".toList ++ k ++ ['$']) = true)) := by
  have h0 : ¬ has_key ([] : Dictionary) k := by simp [has_key]
  have hc : ∀ cv : Option Dictionary,
      has_key (match cv with
        | some command_vars => command_vars_loop (GetCommandLine command) command_vars []
        | none => []) k ↔
      (binds cv k ∧ Contains (GetCommandLine command) (short_form k) = true) := by
    intro cv
    cases cv with
    | none => simp [h0, binds_none]
    | some d => simp only [has_key_command_vars_loop, binds_some, h0, false_or]
  have hh : ∀ (hv : Option Dictionary) (args : Dictionary),
      has_key (match hv with
        | some host_vars => host_vars_loop (GetCommandLine command) host_vars args
        | none => args) k ↔
      has_key args k ∨ (binds hv k ∧
        (Contains (GetCommandLine command) (short_form k) = true ∨
          Contains (GetCommandLine command) ("$host.vars.".toList ++ k ++ ['$']) = true)) := by
    intro hv args
    cases hv with
    | none => simp [binds_none]
    | some d => simp only [has_key_host_vars_loop, binds_some]
  have hsv : ∀ (sv : Option Dictionary) (args : Dictionary),
      has_key (match sv with
        | some service_vars => service_vars_loop (GetCommandLine command) service_vars args
        | none => args) k ↔
      has_key args k ∨ (binds sv k ∧
        (Contains (GetCommandLine command) (short_form k) = true ∨
          Contains (GetCommandLine command) ("$service.vars.".toList ++ k ++ ['$']) = true)) := by
    intro sv args
    cases sv with
    | none => simp [binds_none]
    | some d => simp only [has_key_service_vars_loop, binds_some]
  unfold command_args
  cases service with
  | none =>
    simp only [Option.none_bind]
    rw [hh, hc]
    simp [binds_none]
  | some sv =>
    simp only [Option.some_bind]
    rw [hsv, hh, hc]
    tauto

theorem service_vars_eq (checkable : CheckableObject) :
    (GetHostService checkable).2.bind (fun s => s.vars) = checkable.service_vars := by
  cases checkable <;> rfl

theorem used_vars_eq (checkable : CheckableObject) (command : Command)
    (hc : checkable.GetCheckCommand = some command) :
    used_vars checkable =
      command_args command (GetHostService checkable).1 (GetHostService checkable).2 := by
  unfold used_vars
  rw [hc]

/-- The string returned is the rendering of the used variables. -/
theorem GetCheckableCommandArgs_eq (checkable : CheckableObject) :
    GetCheckableCommandArgs checkable =
      (used_vars checkable).foldl
        (fun arg_string kv => arg_string ++ (kv.1 ++ ['='] ++ kv.2 ++ ['!'])) [] := by
  unfold GetCheckableCommandArgs used_vars
  cases checkable.GetCheckCommand <;> rfl

/-- C12. For every checkable with a check command, a key is among the used
variables (the dictionary that `GetCheckableCommandArgs` renders) exactly when
it is bound in the command variables and the invocation text contains `$k$`,
or it is bound in the host variables and the text contains `$k$` or
`$host.vars.k$`, or the checkable is a service, the key is bound in the
service variables and the text contains `$k$` or `$service.vars.k$`. -/
theorem used_vars_spec (checkable : CheckableObject) (command : Command)
    (hc : checkable.GetCheckCommand = some command) (k : Str) :
    (has_key (used_vars checkable) k ↔
      (binds command.vars k ∧ Contains (GetCommandLine command) (short_form k) = true) ∨
      (binds checkable.host_vars k ∧
        (Contains (GetCommandLine command) (short_form k) = true ∨
          Contains (GetCommandLine command) ("$host.vars.".toList ++ k ++ ['$']) = true)) ∨
      (binds checkable.service_vars k ∧
        (Contains (GetCommandLine command) (short_form k) = true ∨
          Contains (GetCommandLine command) ("$service.vars.".toList ++ k ++ ['$']) = true))) ∧
    GetCheckableCommandArgs checkable =
      (used_vars checkable).foldl
        (fun arg_string kv => arg_string ++ (kv.1 ++ ['='] ++ kv.2 ++ ['!'])) [] := by
  refine ⟨?_, GetCheckableCommandArgs_eq checkable⟩
  rw [used_vars_eq checkable command hc, has_key_command_args, service_vars_eq]
  rfl

/-- C12 at the example: with the invocation text
`check_http -H $host.vars.address$ -p $port$`, host variables binding `address`
and command variables binding `port` and `xyz`, the used variables have the
keys `address` and `port` and not the key `xyz`. -/
theorem used_vars_spec_witness :
    (CheckableObject.host example_host).GetCheckCommand =
      some ⟨CommandType.CheckCommand, "http".toList, Value.scalar example_command_line,
        some [("port".toList, "443".toList), ("xyz".toList, "1".toList)]⟩ ∧
    has_key (used_vars (CheckableObject.host example_host)) "address".toList ∧
    has_key (used_vars (CheckableObject.host example_host)) "port".toList ∧
    ¬ has_key (used_vars (CheckableObject.host example_host)) "xyz".toList :=
  ⟨rfl,
   ((used_vars_spec (CheckableObject.host example_host) _ rfl "address".toList).1).mpr
     (Or.inr (Or.inl ⟨⟨_, rfl, "10.0.0.1".toList, by decide⟩, Or.inr (by decide)⟩)),
   ((used_vars_spec (CheckableObject.host example_host) _ rfl "port".toList).1).mpr
     (Or.inl ⟨⟨_, rfl, "443".toList, by decide⟩, by decide⟩),
   fun h => by
     rcases ((used_vars_spec (CheckableObject.host example_host) _ rfl "xyz".toList).1).mp h
       with ⟨_, hc⟩ | ⟨_, hc | hc⟩ | ⟨_, hc | hc⟩
     all_goals exact absurd hc (by decide)⟩

/-! ## The value of a used variable -/

theorem Get_append_of_some (d e : Dictionary) (k w : Str)
    (h : Dictionary.Get d k = some w) : Dictionary.Get (d ++ e) k = some w := by
  induction d with
  | nil => simp [Dictionary.Get] at h
  | cons p rest ih =>
    obtain ⟨k0, v0⟩ := p
    simp only [List.cons_append, Dictionary.Get] at h ⊢
    by_cases hk : k0 = k
    · rw [if_pos hk] at h ⊢
      exact h
    · rw [if_neg hk] at h ⊢
      exact ih h

theorem Get_append_of_none (d e : Dictionary) (k : Str)
    (h : Dictionary.Get d k = none) : Dictionary.Get (d ++ e) k = Dictionary.Get e k := by
  induction d with
  | nil => rfl
  | cons p rest ih =>
    obtain ⟨k0, v0⟩ := p
    simp only [List.cons_append, Dictionary.Get] at h ⊢
    by_cases hk : k0 = k
    · rw [if_pos hk] at h
      cases h
    · rw [if_neg hk] at h ⊢
      exact ih h

theorem Get_Set_of_some (d : Dictionary) (key value k w : Str)
    (h : Dictionary.Get d k = some w) :
    Dictionary.Get (Dictionary.Set d key value) k = some w := by
  unfold Dictionary.Set
  cases Dictionary.Get d key with
  | some _ => exact h
  | none => exact Get_append_of_some d _ k w h

theorem Get_Set_self (d : Dictionary) (k v : Str) (h : Dictionary.Get d k = none) :
    Dictionary.Get (Dictionary.Set d k v) k = some v := by
  unfold Dictionary.Set
  rw [h]
  simp only
  rw [Get_append_of_none d _ k h]
  simp [Dictionary.Get]

theorem Get_Set_ne (d : Dictionary) (key value k : Str) (hne : key ≠ k) :
    Dictionary.Get (Dictionary.Set d key value) k = Dictionary.Get d k := by
  unfold Dictionary.Set
  cases Dictionary.Get d key with
  | some _ => rfl
  | none =>
    simp only
    cases hg : Dictionary.Get d k with
    | some w => exact Get_append_of_some d _ k w hg
    | none =>
      rw [Get_append_of_none d _ k hg]
      simp [Dictionary.Get, hne]

/-- A loop whose steps keep the value bound to `k` keeps it. -/
theorem Get_foldl_of_some (step : Dictionary → Str × Str → Dictionary) (k w : Str)
    (hstep : ∀ args kv, Dictionary.Get args k = some w →
      Dictionary.Get (step args kv) k = some w)
    (l args : Dictionary) (h : Dictionary.Get args k = some w) :
    Dictionary.Get (l.foldl step args) k = some w := by
  induction l generalizing args with
  | nil => exact h
  | cons p rest ih => exact ih _ (hstep args p h)

theorem Get_scoped_loop_of_some (T scope : Str) (k w : Str) (l args : Dictionary)
    (h : Dictionary.Get args k = some w) :
    Dictionary.Get (l.foldl
      (fun args kv =>
        if Contains T (scope ++ kv.1 ++ ['$']) = true then
          Dictionary.Set (if Contains T (['$'] ++ kv.1 ++ ['$']) = true
            then Dictionary.Set args kv.1 kv.2 else args) kv.1 kv.2
        else (if Contains T (['$'] ++ kv.1 ++ ['$']) = true
            then Dictionary.Set args kv.1 kv.2 else args)) args) k = some w := by
  apply Get_foldl_of_some _ k w _ l args h
  intro args kv hg
  have h1 : Dictionary.Get (if Contains T (['$'] ++ kv.1 ++ ['$']) = true
      then Dictionary.Set args kv.1 kv.2 else args) k = some w := by
    split_ifs
    · exact Get_Set_of_some _ _ _ _ _ hg
    · exact hg
  split_ifs
  all_goals first
    | exact Get_Set_of_some _ _ _ _ _ (Get_Set_of_some _ _ _ _ _ hg)
    | exact Get_Set_of_some _ _ _ _ _ hg
    | exact hg

theorem Get_command_vars_loop (T : Str) (k v : Str) (vars args : Dictionary)
    (ha : Dictionary.Get args k = none) (hv : Dictionary.Get vars k = some v)
    (hc : Contains T (short_form k) = true) :
    Dictionary.Get (command_vars_loop T vars args) k = some v := by
  unfold command_vars_loop
  induction vars generalizing args with
  | nil => simp [Dictionary.Get] at hv
  | cons p rest ih =>
    obtain ⟨k0, v0⟩ := p
    simp only [Dictionary.Get] at hv
    rw [List.foldl_cons]
    by_cases hk : k0 = k
    · rw [if_pos hk] at hv
      have hv0 : v0 = v := Option.some.inj hv
      subst hk
      subst hv0
      apply Get_foldl_of_some
      · intro args kv hg
        simp only
        split_ifs
        · exact Get_Set_of_some _ _ _ _ _ hg
        · exact hg
      · simp only [short_form] at hc
        simp only [hc, if_true]
        exact Get_Set_self args k0 v0 ha
    · rw [if_neg hk] at hv
      apply ih _ _ hv
      simp only
      split_ifs
      · rw [Get_Set_ne _ _ _ _ hk]
        exact ha
      · exact ha

/-- The value of a key in `args` when the command variables bind it and the
invocation text contains its short macro. -/
theorem Get_command_args (command : Command) (host : Host) (service : Option Service)
    (d : Dictionary) (hd : command.vars = some d) (k v : Str)
    (hv : Dictionary.Get d k = some v)
    (hc : Contains (GetCommandLine command) (short_form k) = true) :
    Dictionary.Get (command_args command host service) k = some v := by
  unfold command_args
  simp only [hd]
  have h1 := Get_command_vars_loop (GetCommandLine command) k v d [] rfl hv hc
  have h2 : Dictionary.Get (match host.vars with
      | some host_vars => host_vars_loop (GetCommandLine command) host_vars
          (command_vars_loop (GetCommandLine command) d [])
      | none => command_vars_loop (GetCommandLine command) d []) k = some v := by
    cases host.vars with
    | none => exact h1
    | some hvars => exact Get_scoped_loop_of_some _ "$host.vars.".toList k v hvars _ h1
  cases service with
  | none => exact h2
  | some sv =>
    simp only
    cases sv.vars with
    | none => exact h2
    | some svars => exact Get_scoped_loop_of_some _ "$service.vars.".toList k v svars _ h2

/-- C13. With `Dictionary::Set` as the specification has it, the first writer
wins: for every checkable whose command variables bind `k` to `v1` and whose
invocation text contains `$k$`, the used variables bind `k` to `v1`, whatever
the host variables and the service variables bind `k` to. -/
theorem first_writer_wins (checkable : CheckableObject) (command : Command)
    (hc : checkable.GetCheckCommand = some command)
    (d : Dictionary) (hd : command.vars = some d) (k v1 : Str)
    (hv : Dictionary.Get d k = some v1)
    (ht : Contains (GetCommandLine command) (short_form k) = true) :
    Dictionary.Get (used_vars checkable) k = some v1 := by
  rw [used_vars_eq checkable command hc]
  exact Get_command_args command _ _ d hd k v1 hv ht

/-- C13 at a host whose command variables bind `k` to `1` and whose host
variables bind `k` to `2`, with the invocation text `echo $k$`: the used
variables bind `k` to `1`. -/
theorem first_writer_wins_witness :
    (CheckableObject.host collision_host).GetCheckCommand =
      some ⟨CommandType.CheckCommand, "echo".toList, Value.scalar "echo $k$".toList,
        some [("k".toList, "1".toList)]⟩ ∧
    Dictionary.Get [("k".toList, "1".toList)] "k".toList = some "1".toList ∧
    (CheckableObject.host collision_host).host_vars = some [("k".toList, "2".toList)] ∧
    Dictionary.Get (used_vars (CheckableObject.host collision_host)) "k".toList =
      some "1".toList :=
  ⟨rfl, by decide, rfl,
   first_writer_wins (CheckableObject.host collision_host) _ rfl
     [("k".toList, "1".toList)] rfl "k".toList "1".toList (by decide) (by decide)⟩

/-! ## A key inside the name of another macro -/

/-- C14, as stated, fails: the command variables bind `port`, the invocation
text `check_tcp -p $reportport$` refers to the macro `$reportport$` only, and
the used variables are empty: the text does not contain `$port$`. -/
theorem reportport_counterexample :
    (CheckableObject.host reportport_host).GetCheckCommand =
      some ⟨CommandType.CheckCommand, "tcp".toList,
        Value.scalar "check_tcp -p $reportport$".toList,
        some [("port".toList, "443".toList)]⟩ ∧
    GetCommandLine ⟨CommandType.CheckCommand, "tcp".toList,
        Value.scalar "check_tcp -p $reportport$".toList,
        some [("port".toList, "443".toList)]⟩ = "check_tcp -p $reportport$".toList ∧
    Contains "check_tcp -p $reportport$".toList "port".toList = true ∧
    Contains "check_tcp -p $reportport$".toList (short_form "port".toList) = false ∧
    used_vars (CheckableObject.host reportport_host) = [] ∧
    Dictionary.Get (used_vars (CheckableObject.host reportport_host)) "port".toList = none ∧
    GetCheckableCommandArgs (CheckableObject.host reportport_host) = [] := by
  decide

/-- C14, amended. A key is not among the used variables unless the invocation
text contains the key between dollar signs, `$k$`, or one of the qualified
forms `$host.vars.k$` and `$service.vars.k$`: a key that is a part of the
name of another macro only, like `port` in `$reportport$`, is not a match. -/
theorem used_vars_needs_delimiters (checkable : CheckableObject) (command : Command)
    (hc : checkable.GetCheckCommand = some command) (k : Str)
    (h1 : Contains (GetCommandLine command) (short_form k) = false)
    (h2 : Contains (GetCommandLine command) ("$host.vars.".toList ++ k ++ ['$']) = false)
    (h3 : Contains (GetCommandLine command) ("$service.vars.".toList ++ k ++ ['$']) = false) :
    ¬ has_key (used_vars checkable) k ∧ Dictionary.Get (used_vars checkable) k = none := by
  have hn : ¬ has_key (used_vars checkable) k := by
    rw [used_vars_eq checkable command hc, has_key_command_args]
    rw [h1, h2, h3]
    simp
  exact ⟨hn, (Get_eq_none_iff _ _).mpr hn⟩

/-- C14, amended, at the command variables binding `port` and the invocation
text `check_tcp -p $reportport$`: `port` is not among the used variables. -/
theorem used_vars_needs_delimiters_witness :
    (CheckableObject.host reportport_host).GetCheckCommand =
      some ⟨CommandType.CheckCommand, "tcp".toList,
        Value.scalar "check_tcp -p $reportport$".toList,
        some [("port".toList, "443".toList)]⟩ ∧
    ¬ has_key (used_vars (CheckableObject.host reportport_host)) "port".toList :=
  ⟨rfl,
   (used_vars_needs_delimiters (CheckableObject.host reportport_host) _ rfl "port".toList
     (by decide) (by decide) (by decide)).1⟩

end CompatUtility
